import Mathlib

/-!
Shallow embedding of the ladder engine of `src/app.py` (rallyrung).

Conventions used throughout:
* Python `None` for an optional integer column becomes `Option Int`
  (`isinstance` integer checks are subsumed by the types).
* SQL NULL player references become `Option Nat`.
* The `ladder_players` table is embedded as a `LadderState`: the list of
  `user_id`s plus one function per mutable column (`ranking`, `is_active`,
  `inactive_months`).  An SQL `UPDATE ... WHERE user_id = u` becomes a
  function update; on a `u` that is not in the table this differs from SQL
  only on points that are never read, since every read (`getR`,
  `findByRank`, `activesSortedByRank`) is restricted to `uids`.
* The in-memory `rankings` dict of `admin_monthly_reset` is kept in sync
  with the table by the source at every read that matters, so both are
  represented by the single `rank` function (divergences are noted at the
  definitions where they arise, and are never read by the source).
-/

/-- `validate_set_score`: the set of pairs built by the source loop
`for w in range(5): add (6,w); add (w,6)` plus 7-5/5-7/7-6/6-7,
enumerated literally. -/
def valid_set_pairs : List (Int × Int) :=
  [(6, 0), (0, 6), (6, 1), (1, 6), (6, 2), (2, 6), (6, 3), (3, 6), (6, 4), (4, 6),
   (7, 5), (5, 7), (7, 6), (6, 7)]

/-- `validate_set_score(p1, p2)` from `src/app.py`. -/
def validate_set_score : Option Int → Option Int → Bool
  | none, _ => true
  | some _, none => true
  | some p1, some p2 =>
    if p1 < 0 ∨ p2 < 0 then false
    else decide ((p1, p2) ∈ valid_set_pairs)

/-- `validate_tiebreak_score(p1, p2)` from `src/app.py`. -/
def validate_tiebreak_score : Option Int → Option Int → Bool
  | none, _ => true
  | some _, none => true
  | some p1, some p2 =>
    if p1 < 0 ∨ p2 < 0 then false
    else
      let high := max p1 p2
      let low := min p1 p2
      let diff := high - low
      if diff < 2 then false
      else if high = 10 ∧ low ≤ 8 then true
      else if 10 < high ∧ low = high - 2 ∧ 9 ≤ low then true
      else if high = 7 ∧ low ≤ 5 then true
      else if 7 < high ∧ high < 10 ∧ low = high - 2 ∧ 6 ≤ low then true
      else false

/-- A row of the `matches` table (the columns the engine reads). -/
structure Match where
  player1_id : Nat
  player2_id : Nat
  winner_id : Option Nat
  outcome_type : String
  status : String
  set1_p1 : Option Int
  set1_p2 : Option Int
  set2_p1 : Option Int
  set2_p2 : Option Int
  set3_p1 : Option Int
  set3_p2 : Option Int
deriving DecidableEq

/-- The `for s in range(1, 4)` loop over set columns, as a list of pairs. -/
def setPairs (m : Match) : List (Option Int × Option Int) :=
  [(m.set1_p1, m.set1_p2), (m.set2_p1, m.set2_p2), (m.set3_p1, m.set3_p2)]

/-- `calculate_match_games(match)` from `src/app.py`. -/
def calculate_match_games (m : Match) : Int × Int :=
  if m.outcome_type = "forfeit" ∨ m.outcome_type = "injury_not_played" then
    if m.winner_id = some m.player1_id then (12, 0)
    else if m.winner_id = some m.player2_id then (0, 12)
    else (0, 0)
  else
    (setPairs m).foldl
      (fun acc sp =>
        match sp with
        | (some s1, some s2) => (acc.1 + s1, acc.2 + s2)
        | _ => acc)
      ((0 : Int), (0 : Int))

/-- `calculate_sets_won_lost(match)` from `src/app.py`. -/
def calculate_sets_won_lost (m : Match) : Nat × Nat :=
  if m.outcome_type = "forfeit" ∨ m.outcome_type = "injury_not_played" then
    if m.winner_id = some m.player1_id then (2, 0)
    else if m.winner_id = some m.player2_id then (0, 2)
    else (0, 0)
  else
    (setPairs m).foldl
      (fun acc sp =>
        match sp with
        | (some s1, some s2) =>
          if s2 < s1 then (acc.1 + 1, acc.2)
          else if s1 < s2 then (acc.1, acc.2 + 1)
          else acc
        | _ => acc)
      ((0 : Nat), (0 : Nat))

/-- The per-player stats dict of `get_group_standings`. -/
structure Stats where
  wins : Nat
  losses : Nat
  games_won : Int
  games_lost : Int
  sets_won : Nat
  sets_lost : Nat
deriving DecidableEq

def initStats : Stats := ⟨0, 0, 0, 0, 0, 0⟩

/-- Pointwise update of the stats dict (`stats[pid] = ...`). -/
def updStats (st : Nat → Stats) (k : Nat) (f : Stats → Stats) : Nat → Stats :=
  fun x => if x = k then f (st x) else st x

/-- The body of the match loop of `get_group_standings`: skip
schedule/weather problems, accumulate games and sets for each side that is
a group member, then wins/losses by comparing `winner_id` to each side. -/
def applyMatchToStats (pids : List Nat) (st : Nat → Stats) (m : Match) : Nat → Stats :=
  if m.outcome_type = "schedule_problem" ∨ m.outcome_type = "weather_problem" then st
  else
    let p1 := m.player1_id
    let p2 := m.player2_id
    let winner := m.winner_id
    let g := calculate_match_games m
    let se := calculate_sets_won_lost m
    let st1 := if p1 ∈ pids then
        updStats st p1 (fun x =>
          { x with games_won := x.games_won + g.1, games_lost := x.games_lost + g.2,
                   sets_won := x.sets_won + se.1, sets_lost := x.sets_lost + se.2 })
      else st
    let st2 := if p2 ∈ pids then
        updStats st1 p2 (fun x =>
          { x with games_won := x.games_won + g.2, games_lost := x.games_lost + g.1,
                   sets_won := x.sets_won + se.2, sets_lost := x.sets_lost + se.1 })
      else st1
    if winner = some p1 then
      let st3 := if p1 ∈ pids then updStats st2 p1 (fun x => { x with wins := x.wins + 1 }) else st2
      if p2 ∈ pids then updStats st3 p2 (fun x => { x with losses := x.losses + 1 }) else st3
    else if winner = some p2 then
      let st3 := if p2 ∈ pids then updStats st2 p2 (fun x => { x with wins := x.wins + 1 }) else st2
      if p1 ∈ pids then updStats st3 p1 (fun x => { x with losses := x.losses + 1 }) else st3
    else st2

/-- `get_group_standings(group_id)` from `src/app.py`, with the DB reads
made explicit: `pids` are the group member ids and `ms` the group match
rows; the `status = 'confirmed'` SQL filter is the list filter. -/
def get_group_standings (pids : List Nat) (ms : List Match) : Nat → Stats :=
  (ms.filter (fun m => m.status = "confirmed")).foldl (applyMatchToStats pids)
    (fun _ => initStats)

/-- A row of `monthly_groups` (NULL `player2_id`/`player3_id` as `none`). -/
structure MGroup where
  group_number : Nat
  player1_id : Nat
  player2_id : Option Nat
  player3_id : Option Nat
deriving DecidableEq

/-- The member-id list `[p1, p2, p3]` with falsy (NULL) entries removed. -/
def memberIds (g : MGroup) : List Nat :=
  [g.player1_id] ++ g.player2_id.toList ++ g.player3_id.toList

/-- The three-player verdict of `admin_monthly_reset` (2-0 up, 0-2 down,
1-1 stay, anything else stay). -/
def verdict3 (s : Stats) : String :=
  if s.wins = 2 ∧ s.losses = 0 then "up"
  else if s.wins = 0 ∧ s.losses = 2 then "down"
  else if s.wins = 1 ∧ s.losses = 1 then "stay"
  else "stay"

/-- The two-player verdict of `admin_monthly_reset`. -/
def verdict2 (s : Stats) : String :=
  if s.losses < s.wins then "up"
  else if s.wins < s.losses then "down"
  else "stay"

/-- Write a list of verdicts into the `movements` dict. -/
def writeMovs (mov : Nat → Option String) (l : List (Nat × String)) : Nat → Option String :=
  l.foldl (fun f kv => fun x => if x = kv.1 then some kv.2 else f x) mov

/-- One iteration of the movement loop of `admin_monthly_reset` for one
group (standings, per-player verdicts, three-way 1-1 detection).  When all
three players of a 3-group are 1-1 the source calls
`tied.sort(key=tiebreak_key)` whose key function reads the local variable
`rankings`, which is only assigned later in the function, so the reset
raises there; this is embedded as the `Except.error` branch. -/
def movementsStep (gm : MGroup × List Match) (mov : Nat → Option String) :
    Except String (Nat → Option String) :=
  let pids := memberIds gm.1
  let standings := get_group_standings pids gm.2
  if pids.length = 3 then
    let mov1 := writeMovs mov (pids.map (fun pid => (pid, verdict3 (standings pid))))
    let tied := pids.filter (fun pid => mov1 pid = some "stay" ∧ (standings pid).wins = 1)
    if tied.length = 3 then
      Except.error "NameError: free variable rankings referenced before assignment in tiebreak_key"
    else Except.ok mov1
  else if pids.length = 2 then
    Except.ok (writeMovs mov (pids.map (fun pid => (pid, verdict2 (standings pid)))))
  else Except.ok mov

/-- The whole movement loop (groups already in `group_number` order). -/
def computeMovements (gs : List (MGroup × List Match)) :
    Except String (Nat → Option String) :=
  gs.foldlM (fun mov gm => movementsStep gm mov) (fun _ => none)

/-- The `ladder_players` table of one ladder: the row keys plus one
function per mutable column. -/
structure LadderState where
  uids : List Nat
  rank : Nat → Int
  act : Nat → Bool
  inm : Nat → Nat

/-- `rankings.get(u, d)` — the dict holds exactly the table rows. -/
def getR (s : LadderState) (u : Nat) (d : Int) : Int :=
  if u ∈ s.uids then s.rank u else d

/-- `UPDATE ladder_players SET ranking = r WHERE user_id = u` (together
with the matching `rankings[u] = r` dict write). -/
def setR (s : LadderState) (u : Nat) (r : Int) : LadderState :=
  { s with rank := fun v => if v = u then r else s.rank v }

/-- `SELECT user_id FROM ladder_players WHERE ranking = q` + `fetchone`. -/
def findByRank (s : LadderState) (q : Int) : Option Nat :=
  s.uids.find? (fun u => s.rank u = q)

/-- A stable ascending sort by an integer-like key: the behaviour of both
Python `list.sort(key=...)` and SQL `ORDER BY` on a unique key. -/
def sortOn {α β : Type} [LinearOrder β] (key : α → β) (l : List α) : List α :=
  List.insertionSort (fun a b => key a ≤ key b) l

/-- `SELECT user_id FROM ladder_players WHERE is_active ORDER BY ranking`. -/
def activesSortedByRank (s : LadderState) : List Nat :=
  sortOn (fun u => s.rank u) (s.uids.filter (fun u => s.act u))

/-- The `up` swap body: swap rankings with whoever currently holds
`top_rank - 1`; if the lookup misses nothing happens. -/
def doSwapUp (s : LadderState) (top : Nat) : LadderState :=
  match findByRank s (getR s top 1 - 1) with
  | some above_uid => setR (setR s top (getR s top 1 - 1)) above_uid (getR s top 1)
  | none => s

/-- The `down` swap body: re-fetch the bottom rank and swap rankings with
whoever currently holds `rank + 1`; if the lookup misses nothing
happens. -/
def doSwapDown (s : LadderState) (bottom : Nat) : LadderState :=
  match findByRank s (getR s bottom 1 + 1) with
  | some below_uid => setR (setR s bottom (getR s bottom 1 + 1)) below_uid (getR s bottom 1)
  | none => s

/-- The guarded `up` swap: only when the top member's verdict is `up` and
its rank is above 1. -/
def doUpIf (mov : Nat → Option String) (s : LadderState) (top : Nat) : LadderState :=
  if mov top = some "up" ∧ 1 < getR s top 1 then doSwapUp s top else s

/-- The guarded `down` swap: only when the bottom member's verdict is
`down`. -/
def doDownIf (mov : Nat → Option String) (s : LadderState) (bottom : Nat) : LadderState :=
  if mov bottom = some "down" then doSwapDown s bottom else s

/-- One iteration of the movement-application loop of
`admin_monthly_reset`: sort the group members by current ranking, then
(1) if the top member has verdict `up` and rank > 1, swap rankings with
the current holder of `rank - 1` (skipped if the lookup misses), and
(2) if the bottom member has verdict `down`, re-fetch its rank and swap
with the current holder of `rank + 1` (skipped if the lookup misses). -/
def applyGroupSwaps (mov : Nat → Option String) (s : LadderState) (g : MGroup) : LadderState :=
  match sortOn (fun pid => getR s pid 999) (memberIds g) with
  | [] => s
  | top :: rest =>
    doDownIf mov (doUpIf mov s top) ((top :: rest).getLastD top)

/-- The full movement-application loop: groups processed in the order in
which the `ORDER BY group_number ASC` query returned them, each swap
immediately visible to the later groups. -/
def swapPhase (mov : Nat → Option String) (s : LadderState) (groups : List MGroup) : LadderState :=
  groups.foldl (applyGroupSwaps mov) s

/-- `RESEED_MAP.get(p, p)` — the fixed top/bottom-10 reseeding pattern. -/
def reseedMap (p : Nat) : Nat :=
  if p = 1 then 1 else if p = 2 then 4 else if p = 3 then 7
  else if p = 4 then 2 else if p = 5 then 5 else if p = 6 then 8
  else if p = 7 then 3 else if p = 8 then 6 else if p = 9 then 10
  else if p = 10 then 9 else p

/-- `apply_reseed(player_list, offset)` from `admin_monthly_reset`.
The first loop stages every player on a distinct negative temporary
ranking (and records the final ranking in the dict), the second loop
writes the final rankings; a single `rank` function represents table and
dict because nothing is read between the two loops. -/
def apply_reseed (s : LadderState) (player_list : List (Nat × Int)) (offset : Int) : LadderState :=
  if player_list.length < 2 then s
  else
    let temp_base : Int := -10000 - offset
    let s1 := player_list.enum.foldl
      (fun t x => setR t x.2.1 (temp_base - (x.1 : Int))) s
    player_list.enum.foldl
      (fun t x => setR t x.2.1 (offset + (reseedMap (x.1 + 1) : Int) - 1)) s1

/-- The top-10 reseed call: if at least 10 players are active, reseed the
first ten (by ranking) from offset 1. -/
def reseedTop10 (s : LadderState) : LadderState :=
  if 10 ≤ (activesSortedByRank s).length then
    apply_reseed s (((activesSortedByRank s).take 10).map (fun u => (u, s.rank u))) 1
  else s

/-- The top-10 / bottom-10 reseeding block of `admin_monthly_reset`:
the active players are re-read once after the swaps (`active_players` in
the source, referenced below as `activesSortedByRank s` each time); if at
least 10 are active the first ten (by ranking) are reseeded from offset
1, and if at least 20 are active the last ten are reseeded from the
ranking of the tenth-from-last active player — the pair lists and the
offset are snapshots of the pre-reseed state `s`, exactly as the source
builds them from `active_players` before either `apply_reseed` call. -/
def reseedPhase (s : LadderState) : LadderState :=
  if 20 ≤ (activesSortedByRank s).length then
    match (activesSortedByRank s).drop ((activesSortedByRank s).length - 10) with
    | [] => reseedTop10 s
    | u :: rest =>
      apply_reseed (reseedTop10 s) ((u :: rest).map (fun v => (v, s.rank v))) (s.rank u)
  else reseedTop10 s

/-- The distinct participants of this cycle's confirmed matches
(`active_this_month`). -/
def activeThisMonth (gs : List (MGroup × List Match)) : List Nat :=
  gs.flatMap (fun gm =>
    (gm.2.filter (fun m => m.status = "confirmed")).flatMap
      (fun m => [m.player1_id, m.player2_id]))

/-- One iteration of the auto-drop loop of `admin_monthly_reset`, over one
snapshot row `(user_id, ranking, inactive_months)` of the active players.
Participants get their counter reset; otherwise the counter is
incremented, and on reaching 2 the player is deactivated (its own ranking
column is not touched) and every still-active player ranked below is
shifted up by one; on a first miss only the counter is written and a
warning notification is sent.  The notification side effects are modelled
as the `warned` / `dropped` recipient lists. -/
def autoDropStep (played : List Nat) :
    LadderState × List Nat × List Nat → Nat × Int × Nat → LadderState × List Nat × List Nat :=
  fun acc row =>
    let s := acc.1
    let warned := acc.2.1
    let dropped := acc.2.2
    let uid := row.1
    let snapRank := row.2.1
    let snapInm := row.2.2
    if uid ∈ played then
      ({ s with inm := fun v => if v = uid then 0 else s.inm v }, warned, dropped)
    else
      let ni := snapInm + 1
      if 2 ≤ ni then
        let drop_rank := getR s uid snapRank
        let s1 := { s with act := fun v => if v = uid then false else s.act v,
                           inm := fun v => if v = uid then ni else s.inm v }
        let s2 := { s1 with rank := fun v =>
          if drop_rank < s1.rank v ∧ s1.act v = true then s1.rank v - 1 else s1.rank v }
        (s2, warned, dropped ++ [uid])
      else
        let s1 := { s with inm := fun v => if v = uid then ni else s.inm v }
        if ni = 1 then (s1, warned ++ [uid], dropped) else (s1, warned, dropped)

/-- The whole auto-drop loop: iterate over a snapshot of the active
players (taken after reseeding, in ranking order). -/
def autoDropPhase (played : List Nat) (s : LadderState) :
    LadderState × List Nat × List Nat :=
  ((activesSortedByRank s).map (fun u => (u, s.rank u, s.inm u))).foldl
    (autoDropStep played) (s, [], [])

/-- `admin_monthly_reset` from `src/app.py`, to the extent that it touches
`ladder_players`: with no groups it returns at once with a message and no
mutation; otherwise the movement loop runs first (it can raise, which
rolls the transaction back — the `Except.error` branch), then the swap
loop over the groups in ascending `group_number` order, then reseeding,
then the auto-drop loop.  The `monthly_results` archival writes touch no
`ladder_players` column and are not represented. -/
def admin_monthly_reset (gs : List (MGroup × List Match)) (s : LadderState) :
    Except String (LadderState × List Nat × List Nat × String) :=
  if gs = [] then Except.ok (s, [], [], "No groups found for this month.")
  else
    let gsSorted := sortOn (fun gm => ((gm.1.group_number : Int))) gs
    match computeMovements gsSorted with
    | Except.error e => Except.error e
    | Except.ok mov =>
      let s1 := swapPhase mov s (gsSorted.map (fun gm => gm.1))
      let s2 := reseedPhase s1
      let r3 := autoDropPhase (activeThisMonth gsSorted) s2
      Except.ok (r3.1, r3.2.1, r3.2.2, "Monthly reset complete. Rankings updated.")

/-- Sequential `UPDATE ... SET ranking` writes (proof helper used to
describe the net effect of the two `apply_reseed` loops). -/
def assignAll (s : LadderState) (l : List (Nat × Int)) : LadderState :=
  l.foldl (fun t p => setR t p.1 p.2) s

/-- The spec sentence under claim C1, literally: ranks over ALL
membership rows of the ladder are a permutation of `1..n`. -/
def allRowsRanksPerm (s : LadderState) (n : Int) : Prop :=
  (∀ u ∈ s.uids, 1 ≤ s.rank u ∧ s.rank u ≤ n) ∧
  (∀ u ∈ s.uids, ∀ v ∈ s.uids, s.rank u = s.rank v → u = v) ∧
  (∀ q : Int, 1 ≤ q → q ≤ n → ∃ u, u ∈ s.uids ∧ s.rank u = q)

/-- The corrected invariant: ranks over the ACTIVE membership rows are a
permutation of `1..n` (set exactly `{1..n}`, no duplicates). -/
def activeRanksPerm (s : LadderState) (n : Int) : Prop :=
  (∀ u ∈ s.uids, s.act u = true → 1 ≤ s.rank u ∧ s.rank u ≤ n) ∧
  (∀ u ∈ s.uids, ∀ v ∈ s.uids, s.act u = true → s.act v = true →
    s.rank u = s.rank v → u = v) ∧
  (∀ q : Int, 1 ≤ q → q ≤ n → ∃ u, u ∈ s.uids ∧ s.act u = true ∧ s.rank u = q)

/-! Concrete fixtures used by counterexamples and witnesses. -/

/-- A completed, confirmed match between `a` and `b` won by `w`, scores
6-4 / 4-6 / 10-8 (one set each, so each result is a 1-1 contributor). -/
def cycleMatch (a b : Nat) (w : Option Nat) : Match :=
  { player1_id := a, player2_id := b, winner_id := w, outcome_type := "completed",
    status := "confirmed", set1_p1 := some 6, set1_p2 := some 4,
    set2_p1 := some 4, set2_p2 := some 6, set3_p1 := some 10, set3_p2 := some 8 }

def tieGroup : MGroup :=
  { group_number := 1, player1_id := 1, player2_id := some 2, player3_id := some 3 }

/-- A perfect 3-cycle: 1 beats 2, 2 beats 3, 3 beats 1 — all three 1-1. -/
def tieMatches : List Match := [cycleMatch 1 2 (some 1), cycleMatch 2 3 (some 2), cycleMatch 3 1 (some 3)]

/-- Three active players at ranks 1, 2, 3. -/
def tieState : LadderState :=
  { uids := [1, 2, 3],
    rank := fun u => if u = 1 then 1 else if u = 2 then 2 else if u = 3 then 3 else 0,
    act := fun _ => true, inm := fun _ => 0 }

/-- Four active players `1..4` at ranks `1..4`. -/
def fourState : LadderState :=
  { uids := [1, 2, 3, 4],
    rank := fun u =>
      if u = 1 then 1 else if u = 2 then 2 else if u = 3 then 3 else if u = 4 then 4 else 0,
    act := fun _ => true, inm := fun _ => 0 }

/-- A straight two-player match: 6-0 6-0, confirmed, completed. -/
def sweepMatch (a b : Nat) (w : Option Nat) : Match :=
  { player1_id := a, player2_id := b, winner_id := w, outcome_type := "completed",
    status := "confirmed", set1_p1 := some 6, set1_p2 := some 0,
    set2_p1 := some 6, set2_p2 := some 0, set3_p1 := none, set3_p2 := none }

def missGroup1 : MGroup :=
  { group_number := 1, player1_id := 1, player2_id := some 2, player3_id := none }

def missGroup2 : MGroup :=
  { group_number := 2, player1_id := 3, player2_id := some 4, player3_id := none }

/-- Two 2-player groups: 1 beats 2 (group 1), 3 beats 4 (group 2); the
bottom player of group 2 ends with verdict `down` at the bottom rank, so
its rank + 1 lookup misses. -/
def missGs : List (MGroup × List Match) :=
  [(missGroup1, [sweepMatch 1 2 (some 1)]), (missGroup2, [sweepMatch 3 4 (some 3)])]

/-- Three active players at ranks 1..3; player 2 already has one
inactive month on record. -/
def dropState : LadderState :=
  { uids := [1, 2, 3],
    rank := fun u => if u = 1 then 1 else if u = 2 then 2 else if u = 3 then 3 else 0,
    act := fun _ => true, inm := fun u => if u = 2 then 1 else 0 }

/-- A pending (not yet confirmed) match. -/
def pendingMatch : Match :=
  { player1_id := 1, player2_id := 2, winner_id := some 1, outcome_type := "completed",
    status := "pending", set1_p1 := some 6, set1_p2 := some 0,
    set2_p1 := some 6, set2_p2 := some 0, set3_p1 := none, set3_p2 := none }

/-- A forfeit with stray set-score fields left on the row. -/
def forfeitMatch : Match :=
  { player1_id := 1, player2_id := 2, winner_id := some 1, outcome_type := "forfeit",
    status := "confirmed", set1_p1 := some 3, set1_p2 := some 6,
    set2_p1 := some 2, set2_p2 := some 6, set3_p1 := none, set3_p2 := none }

/-- The 2-player group used by the swap-characterisation witness:
players 2 (rank 2, verdict up) and 3 (rank 3, verdict down). -/
def swapGroup : MGroup :=
  { group_number := 1, player1_id := 2, player2_id := some 3, player3_id := none }

def swapMov : Nat → Option String :=
  fun u => if u = 2 then some "up" else if u = 3 then some "down" else none

/-- Ten active players `1..10`, player `u` at rank `u`. -/
def tenState : LadderState :=
  { uids := [1, 2, 3, 4, 5, 6, 7, 8, 9, 10],
    rank := fun u => (u : Int), act := fun _ => true, inm := fun _ => 0 }

/-- The top-10 pair list `(user_id, ranking)` of `tenState`. -/
def tenPairs : List (Nat × Int) :=
  [(1, 1), (2, 2), (3, 3), (4, 4), (5, 5), (6, 6), (7, 7), (8, 8), (9, 9), (10, 10)]

/-! ## Helper lemmas -/

theorem applyMatchToStats_wins_congr {pids : List Nat} {m : Match} {st st' : Nat → Stats}
    (h : ∀ p, (st p).wins = (st' p).wins) :
    ∀ p, ((applyMatchToStats pids st m) p).wins = ((applyMatchToStats pids st' m) p).wins := by
  intro p
  simp only [applyMatchToStats]
  split_ifs <;> (try simp only [updStats]) <;> (try split_ifs) <;> simp_all

theorem applyMatchToStats_losses_congr {pids : List Nat} {m : Match} {st st' : Nat → Stats}
    (h : ∀ p, (st p).losses = (st' p).losses) :
    ∀ p, ((applyMatchToStats pids st m) p).losses = ((applyMatchToStats pids st' m) p).losses := by
  intro p
  simp only [applyMatchToStats]
  split_ifs <;> (try simp only [updStats]) <;> (try split_ifs) <;> simp_all

theorem foldl_stats_wins_congr (pids : List Nat) (l : List Match) {st st' : Nat → Stats}
    (h : ∀ p, (st p).wins = (st' p).wins) :
    ∀ p, ((l.foldl (applyMatchToStats pids) st) p).wins =
      ((l.foldl (applyMatchToStats pids) st') p).wins := by
  induction l generalizing st st' with
  | nil => exact h
  | cons m rest ih => exact ih (applyMatchToStats_wins_congr h)

theorem foldl_stats_losses_congr (pids : List Nat) (l : List Match) {st st' : Nat → Stats}
    (h : ∀ p, (st p).losses = (st' p).losses) :
    ∀ p, ((l.foldl (applyMatchToStats pids) st) p).losses =
      ((l.foldl (applyMatchToStats pids) st') p).losses := by
  induction l generalizing st st' with
  | nil => exact h
  | cons m rest ih => exact ih (applyMatchToStats_losses_congr h)

theorem applyMatchToStats_no_winner_wins {pids : List Nat} {m : Match}
    (hw : m.winner_id = none) (st : Nat → Stats) :
    ∀ p, ((applyMatchToStats pids st m) p).wins = (st p).wins := by
  intro p
  simp only [applyMatchToStats, hw]
  split_ifs <;> (try simp only [updStats]) <;> (try split_ifs) <;> simp_all

theorem applyMatchToStats_no_winner_losses {pids : List Nat} {m : Match}
    (hw : m.winner_id = none) (st : Nat → Stats) :
    ∀ p, ((applyMatchToStats pids st m) p).losses = (st p).losses := by
  intro p
  simp only [applyMatchToStats, hw]
  split_ifs <;> (try simp only [updStats]) <;> (try split_ifs) <;> simp_all

theorem pair_swap_mem (x y : Int) (hm : (x, y) ∈ valid_set_pairs) :
    (y, x) ∈ valid_set_pairs := by
  have hsym : ∀ p ∈ valid_set_pairs, (p.2, p.1) ∈ valid_set_pairs := by decide
  exact hsym (x, y) hm

/-! ## Claims -/

/-- C5, counterexample: the claim (and the spec table) says
`ValidMatchTiebreak(10,7)` is false, but the source accepts it:
high = 10 and low = 7 ≤ 8 satisfies the 10-point branch, exactly as the
spec's own rule `(max=10, min≤8)` prescribes. -/
theorem tiebreak_ten_seven_valid :
    validate_tiebreak_score (some 10) (some 7) = true := by rfl

/-- C5, amended: the match-tiebreak validator treats absent scores as
valid, requires a winning margin of at least 2, and returns true for
(10,8), (11,9) and also for (10,7). -/
theorem tiebreak_validator_amended :
    (∀ b, validate_tiebreak_score none b = true) ∧
    (∀ a, validate_tiebreak_score a none = true) ∧
    (∀ p q : Int, validate_tiebreak_score (some p) (some q) = true →
      2 ≤ max p q - min p q) ∧
    validate_tiebreak_score (some 10) (some 8) = true ∧
    validate_tiebreak_score (some 11) (some 9) = true ∧
    validate_tiebreak_score (some 10) (some 7) = true := by
  refine ⟨fun b => rfl, fun a => ?_, fun p q h => ?_, rfl, rfl, rfl⟩
  · cases a <;> rfl
  · simp only [validate_tiebreak_score] at h
    by_cases h1 : p < 0 ∨ q < 0
    · rw [if_pos h1] at h
      exact absurd h (by simp)
    · rw [if_neg h1] at h
      by_cases h2 : max p q - min p q < 2
      · rw [if_pos h2] at h
        exact absurd h (by simp)
      · exact not_lt.mp h2

/-- C5, witness for the amended theorem at (10, 8). -/
theorem tiebreak_validator_amended_witness :
    2 ≤ max (10 : Int) 8 - min (10 : Int) 8 :=
  tiebreak_validator_amended.2.2.1 10 8 (by rfl)

/-- C10: both score validators are symmetric in their two arguments —
swapping the two players' scores never changes the verdict. -/
theorem score_validators_symmetric :
    ∀ a b : Option Int,
      validate_set_score a b = validate_set_score b a ∧
      validate_tiebreak_score a b = validate_tiebreak_score b a := by
  intro a b
  constructor
  · match a, b with
    | none, none => rfl
    | none, some q => rfl
    | some p, none => rfl
    | some p, some q =>
      simp only [validate_set_score]
      by_cases h : p < 0 ∨ q < 0
      · rw [if_pos h, if_pos (Or.symm h)]
      · rw [if_neg h, if_neg (fun hc => h (Or.symm hc))]
        exact decide_eq_decide.mpr ⟨pair_swap_mem p q, pair_swap_mem q p⟩
  · match a, b with
    | none, none => rfl
    | none, some q => rfl
    | some p, none => rfl
    | some p, some q =>
      simp only [validate_tiebreak_score]
      by_cases h : p < 0 ∨ q < 0
      · rw [if_pos h, if_pos (Or.symm h)]
      · rw [if_neg h, if_neg (fun hc => h (Or.symm hc)), max_comm q p, min_comm q p]

/-- C2: the claim describes the 3-way 1-1 tie-break cascade, but on any
input reaching it (here: a confirmed 3-cycle where 1 beats 2, 2 beats 3,
3 beats 1) the movement loop raises — `tiebreak_key` reads the local
`rankings`, which `admin_monthly_reset` only assigns after the movement
loop — so the whole reset aborts with an error instead of assigning
up/stay/down by the cascade. -/
theorem three_way_tie_reset_raises :
    computeMovements [(tieGroup, tieMatches)] =
      Except.error
        "NameError: free variable rankings referenced before assignment in tiebreak_key" ∧
    admin_monthly_reset [(tieGroup, tieMatches)] tieState =
      Except.error
        "NameError: free variable rankings referenced before assignment in tiebreak_key" :=
  ⟨rfl, rfl⟩

/-- C9: a forfeit / injury_not_played match credits the recorded winner
with 12 games and 2 sets and the loser with 0/0, regardless of stored set
fields; with no winner recorded both sides get 0/0. -/
theorem forfeit_credit (m : Match)
    (h : m.outcome_type = "forfeit" ∨ m.outcome_type = "injury_not_played") :
    (m.winner_id = some m.player1_id →
      calculate_match_games m = (12, 0) ∧ calculate_sets_won_lost m = (2, 0)) ∧
    (m.winner_id = some m.player2_id → m.player2_id ≠ m.player1_id →
      calculate_match_games m = (0, 12) ∧ calculate_sets_won_lost m = (0, 2)) ∧
    (m.winner_id = none →
      calculate_match_games m = (0, 0) ∧ calculate_sets_won_lost m = (0, 0)) := by
  refine ⟨fun hw => ?_, fun hw hne => ?_, fun hw => ?_⟩
  · simp [calculate_match_games, calculate_sets_won_lost, h, hw]
  · simp [calculate_match_games, calculate_sets_won_lost, h, hw, hne]
  · simp [calculate_match_games, calculate_sets_won_lost, h, hw]

/-- C9, witness: a forfeit with stray set fields 3-6 / 2-6 still credits
the winner 12 games and 2 sets. -/
theorem forfeit_credit_witness :
    calculate_match_games forfeitMatch = (12, 0) ∧
    calculate_sets_won_lost forfeitMatch = (2, 0) :=
  (forfeit_credit forfeitMatch (Or.inl rfl)).1 rfl

/-- C8: standings aggregate only confirmed matches; confirmed
schedule/weather-problem matches contribute nothing at all; and a counted
match with a null winner increments nobody's wins or losses. -/
theorem standings_confirmed_only :
    (∀ (pids : List Nat) (ms : List Match) (m : Match), m.status ≠ "confirmed" →
      get_group_standings pids (m :: ms) = get_group_standings pids ms) ∧
    (∀ (pids : List Nat) (ms : List Match) (m : Match),
      m.outcome_type = "schedule_problem" ∨ m.outcome_type = "weather_problem" →
      get_group_standings pids (m :: ms) = get_group_standings pids ms) ∧
    (∀ (pids : List Nat) (ms : List Match) (m : Match) (pid : Nat), m.winner_id = none →
      (get_group_standings pids (m :: ms) pid).wins =
        (get_group_standings pids ms pid).wins ∧
      (get_group_standings pids (m :: ms) pid).losses =
        (get_group_standings pids ms pid).losses) := by
  refine ⟨fun pids ms m h => ?_, fun pids ms m h => ?_, fun pids ms m pid hw => ?_⟩
  · simp [get_group_standings, List.filter_cons, h]
  · by_cases hst : m.status = "confirmed"
    · rcases h with h | h <;>
        simp [get_group_standings, List.filter_cons, hst, applyMatchToStats, h]
    · simp [get_group_standings, List.filter_cons, hst]
  · by_cases hst : m.status = "confirmed"
    · constructor
      · simpa [get_group_standings, List.filter_cons, hst] using
          foldl_stats_wins_congr pids (ms.filter (fun x => x.status = "confirmed"))
            (applyMatchToStats_no_winner_wins hw _) pid
      · simpa [get_group_standings, List.filter_cons, hst] using
          foldl_stats_losses_congr pids (ms.filter (fun x => x.status = "confirmed"))
            (applyMatchToStats_no_winner_losses hw _) pid
    · simp [get_group_standings, List.filter_cons, hst]

/-- C8, witness: a pending match contributes nothing to standings. -/
theorem standings_confirmed_only_witness :
    get_group_standings [1, 2] [pendingMatch] = get_group_standings [1, 2] [] :=
  standings_confirmed_only.1 [1, 2] [] pendingMatch (by decide)

theorem getR_mem {s : LadderState} {u : Nat} (h : u ∈ s.uids) (d : Int) :
    getR s u d = s.rank u := by
  simp [getR, h]

theorem findByRank_eq_some {s : LadderState} {q : Int} {u : Nat}
    (h : findByRank s q = some u) : u ∈ s.uids ∧ s.rank u = q := by
  refine ⟨List.mem_of_find?_eq_some h, ?_⟩
  have := List.find?_some h
  simpa using this

theorem find?_ext {α : Type} {p q : α → Bool} :
    ∀ {l : List α}, (∀ x ∈ l, p x = q x) → l.find? p = l.find? q := by
  intro l
  induction l with
  | nil => intro _; rfl
  | cons a tl ih =>
    intro h
    rw [List.find?_cons, List.find?_cons, h a (List.mem_cons_self a tl)]
    cases q a with
    | true => rfl
    | false => exact ih (fun x hx => h x (List.mem_cons_of_mem a hx))

theorem sortOn_perm {α β : Type} [LinearOrder β] (key : α → β) (l : List α) :
    (sortOn key l).Perm l :=
  List.perm_insertionSort _ l

theorem sortOn_pair {α β : Type} [LinearOrder β] (key : α → β) (t b : α)
    (h : key t ≤ key b) : sortOn key [t, b] = [t, b] := by
  simp [sortOn, List.insertionSort, List.orderedInsert, h]

theorem applyGroupSwaps_two (mov : Nat → Option String) (s : LadderState) (g : MGroup)
    (t b : Nat) (hg : sortOn (fun pid => getR s pid 999) (memberIds g) = [t, b]) :
    applyGroupSwaps mov s g = doDownIf mov (doUpIf mov s t) b := by
  unfold applyGroupSwaps
  rw [hg]
  rfl

/-- C4: the swap machinery of the monthly reset.  For a 2-player group
whose top member (by current rank) has verdict `up` at rank > 1 and whose
bottom member has verdict `down`: the top member swaps rankings with the
current holder of its rank minus one, then the bottom member swaps with
the current holder of its (re-fetched) rank plus one; each swap is a
single adjacent transposition touching nobody else, and the groups are
folded sequentially in query order, each group seeing the previous
group's swaps. -/
theorem swap_phase_adjacent_transpositions
    (mov : Nat → Option String) (s : LadderState) (g : MGroup) (t b a c : Nat)
    (hg : memberIds g = [t, b])
    (ht : t ∈ s.uids) (hb : b ∈ s.uids)
    (horder : getR s t 999 < getR s b 999)
    (hmt : mov t = some "up") (hmb : mov b = some "down")
    (hrt : 1 < s.rank t)
    (hup : findByRank s (s.rank t - 1) = some a)
    (hdn : findByRank s (s.rank b + 1) = some c) :
    (applyGroupSwaps mov s g).rank t = s.rank t - 1 ∧
    (applyGroupSwaps mov s g).rank a = s.rank t ∧
    (applyGroupSwaps mov s g).rank b = s.rank b + 1 ∧
    (applyGroupSwaps mov s g).rank c = s.rank b ∧
    (∀ v, v ≠ t → v ≠ a → v ≠ b → v ≠ c → (applyGroupSwaps mov s g).rank v = s.rank v) ∧
    (∀ gs, swapPhase mov s (g :: gs) = swapPhase mov (applyGroupSwaps mov s g) gs) := by
  have hgt : getR s t 999 = s.rank t := getR_mem ht 999
  have hgb : getR s b 999 = s.rank b := getR_mem hb 999
  have htb : s.rank t < s.rank b := by rw [hgt, hgb] at horder; exact horder
  obtain ⟨ha, hra⟩ := findByRank_eq_some hup
  obtain ⟨hc, hrc⟩ := findByRank_eq_some hdn
  have hat : a ≠ t := by intro h; rw [h] at hra; omega
  have hab : a ≠ b := by intro h; rw [h] at hra; omega
  have hac : a ≠ c := by intro h; rw [h] at hra; omega
  have htb2 : t ≠ b := by intro h; rw [h] at htb; omega
  have htc : t ≠ c := by intro h; rw [← h] at hrc; omega
  have hbc : b ≠ c := by intro h; rw [h] at hrc; omega
  have hsorted : sortOn (fun pid => getR s pid 999) (memberIds g) = [t, b] := by
    rw [hg]; exact sortOn_pair _ t b (le_of_lt horder)
  have hcondt : mov t = some "up" ∧ 1 < getR s t 1 := ⟨hmt, by rw [getR_mem ht]; exact hrt⟩
  have hs1 : doUpIf mov s t = setR (setR s t (s.rank t - 1)) a (s.rank t) := by
    unfold doUpIf
    rw [if_pos hcondt]
    unfold doSwapUp
    rw [getR_mem ht, hup]
  have hkey : applyGroupSwaps mov s g =
      doSwapDown (setR (setR s t (s.rank t - 1)) a (s.rank t)) b := by
    rw [applyGroupSwaps_two mov s g t b hsorted]
    unfold doDownIf
    rw [if_pos hmb, hs1]
  -- the intermediate state after the up swap
  have huids1 : (setR (setR s t (s.rank t - 1)) a (s.rank t)).uids = s.uids := rfl
  have hrank1 : ∀ v, (setR (setR s t (s.rank t - 1)) a (s.rank t)).rank v =
      if v = a then s.rank t else if v = t then s.rank t - 1 else s.rank v := by
    intro v; rfl
  have hgb1 : getR (setR (setR s t (s.rank t - 1)) a (s.rank t)) b 1 = s.rank b := by
    rw [getR_mem (by rw [huids1]; exact hb), hrank1 b, if_neg (Ne.symm hab),
      if_neg (Ne.symm htb2)]
  have hfind1 : findByRank (setR (setR s t (s.rank t - 1)) a (s.rank t)) (s.rank b + 1)
      = some c := by
    rw [← hdn]
    unfold findByRank
    rw [huids1]
    apply find?_ext
    intro x hx
    rw [hrank1 x]
    by_cases hxa : x = a
    · subst hxa
      rw [if_pos rfl]
      rw [decide_eq_decide]
      constructor
      · intro hfalse; omega
      · intro hfalse; omega
    · rw [if_neg hxa]
      by_cases hxt : x = t
      · subst hxt
        rw [if_pos rfl]
        rw [decide_eq_decide]
        constructor
        · intro hfalse; omega
        · intro hfalse; omega
      · rw [if_neg hxt]
  have hdown : doSwapDown (setR (setR s t (s.rank t - 1)) a (s.rank t)) b =
      setR (setR (setR (setR s t (s.rank t - 1)) a (s.rank t)) b (s.rank b + 1)) c (s.rank b) := by
    unfold doSwapDown
    rw [hgb1, hfind1]
  have hfinal : ∀ v, (applyGroupSwaps mov s g).rank v =
      if v = c then s.rank b else if v = b then s.rank b + 1
      else if v = a then s.rank t else if v = t then s.rank t - 1 else s.rank v := by
    intro v; rw [hkey, hdown]; rfl
  refine ⟨?_, ?_, ?_, ?_, ?_, fun gs => rfl⟩
  · rw [hfinal t, if_neg htc, if_neg htb2, if_neg (Ne.symm hat), if_pos rfl]
  · rw [hfinal a, if_neg hac, if_neg hab, if_pos rfl]
  · rw [hfinal b, if_neg hbc, if_pos rfl]
  · rw [hfinal c, if_pos rfl]
  · intro v hvt hva hvb hvc
    rw [hfinal v, if_neg hvc, if_neg hvb, if_neg hva, if_neg hvt]

/-- C4, witness: in `fourState` with group `{2, 3}` (ranks 2 and 3),
verdicts up for 2 and down for 3: player 2 swaps with the rank-1 holder
(player 1) and player 3 swaps with the rank-4 holder (player 4). -/
theorem swap_phase_adjacent_transpositions_witness :
    (applyGroupSwaps swapMov fourState swapGroup).rank 2 = fourState.rank 2 - 1 ∧
    (applyGroupSwaps swapMov fourState swapGroup).rank 1 = fourState.rank 2 ∧
    (applyGroupSwaps swapMov fourState swapGroup).rank 3 = fourState.rank 3 + 1 ∧
    (applyGroupSwaps swapMov fourState swapGroup).rank 4 = fourState.rank 3 := by
  have h := swap_phase_adjacent_transpositions swapMov fourState swapGroup 2 3 1 4
    (by rfl) (by decide) (by decide) (by decide) (by rfl) (by rfl) (by decide)
    (by rfl) (by rfl)
  exact ⟨h.1, h.2.1, h.2.2.1, h.2.2.2.1⟩

/-- C3, counterexample: in `fourState` with groups {1,2} and {3,4}
(1 and 3 win), the bottom player 4 has verdict `down` at the bottom rank
4, so its rank-5 lookup misses — yet the reset completes with its success
message and the rankings are mutated (1,2,3,4 become 2,3,1,4), instead of
the whole reset aborting unmutated. -/
theorem lookup_miss_does_not_abort_reset :
    (computeMovements (sortOn (fun gm => ((gm.1.group_number : Int))) missGs)).map
        (fun m => (m 1, m 2, m 3, m 4)) =
      Except.ok (some "up", some "down", some "up", some "down") ∧
    (admin_monthly_reset missGs fourState).map
        (fun r => (r.1.rank 1, r.1.rank 2, r.1.rank 3, r.1.rank 4, r.2.2.2)) =
      Except.ok (2, 3, 1, 4, "Monthly reset complete. Rankings updated.") ∧
    fourState.rank 1 = 1 ∧
    findByRank fourState 5 = none :=
  ⟨rfl, rfl, rfl, rfl⟩

/-- C3, amended: a reset invoked with zero groups returns at once with a
descriptive message and an unchanged state; but a rank lookup miss during
a swap does not abort the reset — only the affected swap is skipped (the
state passes through unchanged) and processing continues. -/
theorem zero_groups_abort_and_lookup_miss_skips :
    (∀ s : LadderState, admin_monthly_reset [] s =
      Except.ok (s, [], [], "No groups found for this month.")) ∧
    (∀ (mov : Nat → Option String) (s : LadderState) (g : MGroup) (t b : Nat),
      memberIds g = [t, b] →
      getR s t 999 < getR s b 999 →
      mov t ≠ some "up" →
      mov b = some "down" →
      findByRank s (getR s b 1 + 1) = none →
      applyGroupSwaps mov s g = s) := by
  constructor
  · intro s; rfl
  · intro mov s g t b hg horder hmt hmb hmiss
    have hsorted : sortOn (fun pid => getR s pid 999) (memberIds g) = [t, b] := by
      rw [hg]; exact sortOn_pair _ t b (le_of_lt horder)
    rw [applyGroupSwaps_two mov s g t b hsorted]
    unfold doDownIf doUpIf
    rw [if_pos hmb, if_neg (fun hc : mov t = some "up" ∧ 1 < getR s t 1 => hmt hc.1)]
    unfold doSwapDown
    rw [hmiss]

/-- C3, witness for the amended theorem: the zero-group branch on
`fourState`, and the skipped down-swap for group {3,4} when nobody holds
rank 5. -/
theorem zero_groups_abort_witness :
    admin_monthly_reset [] fourState =
      Except.ok (fourState, [], [], "No groups found for this month.") ∧
    applyGroupSwaps (fun u => if u = 4 then some "down" else none) fourState missGroup2 =
      fourState := by
  constructor
  · exact zero_groups_abort_and_lookup_miss_skips.1 fourState
  · exact zero_groups_abort_and_lookup_miss_skips.2 _ fourState missGroup2 3 4
      (by rfl) (by decide) (by decide) (by rfl) (by rfl)

theorem activesSortedByRank_nodup {s : LadderState} (h : s.uids.Nodup) :
    (activesSortedByRank s).Nodup :=
  ((sortOn_perm _ _).nodup_iff).mpr (h.filter _)

theorem autoDropStep_wd (played : List Nat) (s : LadderState) (w d : List Nat)
    (row : Nat × Int × Nat) :
    (autoDropStep played (s, w, d) row).2 = (w, d) ∨
    (autoDropStep played (s, w, d) row).2 = (w ++ [row.1], d) ∨
    (autoDropStep played (s, w, d) row).2 = (w, d ++ [row.1]) := by
  unfold autoDropStep
  by_cases h1 : row.1 ∈ played
  · rw [if_pos h1]; exact Or.inl rfl
  · rw [if_neg h1]
    by_cases h2 : 2 ≤ row.2.2 + 1
    · rw [if_pos h2]; exact Or.inr (Or.inr rfl)
    · rw [if_neg h2]
      by_cases h3 : row.2.2 + 1 = 1
      · rw [if_pos h3]; exact Or.inr (Or.inl rfl)
      · rw [if_neg h3]; exact Or.inl rfl

theorem autoDropFold_excl (played : List Nat) :
    ∀ (rows : List (Nat × Int × Nat)) (s : LadderState) (w d : List Nat),
      (rows.map (fun r => r.1)).Nodup →
      (∀ r ∈ rows, r.1 ∉ w) → (∀ r ∈ rows, r.1 ∉ d) →
      (∀ u, ¬(u ∈ w ∧ u ∈ d)) →
      ∀ u, ¬(u ∈ (rows.foldl (autoDropStep played) (s, w, d)).2.1 ∧
             u ∈ (rows.foldl (autoDropStep played) (s, w, d)).2.2) := by
  intro rows
  induction rows with
  | nil => intro s w d _ _ _ hdisj; exact hdisj
  | cons row rest ih =>
    intro s w d hnd hw hd hdisj
    rw [List.map_cons, List.nodup_cons] at hnd
    rw [List.foldl_cons]
    rcases autoDropStep_wd played s w d row with h | h | h
    · have heq : autoDropStep played (s, w, d) row =
          ((autoDropStep played (s, w, d) row).1, w, d) := by
        rw [Prod.ext_iff]; exact ⟨rfl, h⟩
      rw [heq]
      exact ih _ w d hnd.2 (fun r hr => hw r (List.mem_cons_of_mem _ hr))
        (fun r hr => hd r (List.mem_cons_of_mem _ hr)) hdisj
    · have heq : autoDropStep played (s, w, d) row =
          ((autoDropStep played (s, w, d) row).1, w ++ [row.1], d) := by
        rw [Prod.ext_iff]; exact ⟨rfl, h⟩
      rw [heq]
      refine ih _ (w ++ [row.1]) d hnd.2 ?_ (fun r hr => hd r (List.mem_cons_of_mem _ hr)) ?_
      · intro r hr hrmem
        rcases List.mem_append.mp hrmem with hrw | hr1
        · exact hw r (List.mem_cons_of_mem _ hr) hrw
        · exact hnd.1 (by
            have : r.1 = row.1 := by simpa using hr1
            rw [← this]
            exact List.mem_map_of_mem _ hr)
      · intro u hu
        rcases List.mem_append.mp hu.1 with huw | hu1
        · exact hdisj u ⟨huw, hu.2⟩
        · have : u = row.1 := by simpa using hu1
          exact hd row (List.mem_cons_self _ _) (this ▸ hu.2)
    · have heq : autoDropStep played (s, w, d) row =
          ((autoDropStep played (s, w, d) row).1, w, d ++ [row.1]) := by
        rw [Prod.ext_iff]; exact ⟨rfl, h⟩
      rw [heq]
      refine ih _ w (d ++ [row.1]) hnd.2 (fun r hr => hw r (List.mem_cons_of_mem _ hr)) ?_ ?_
      · intro r hr hrmem
        rcases List.mem_append.mp hrmem with hrd | hr1
        · exact hd r (List.mem_cons_of_mem _ hr) hrd
        · exact hnd.1 (by
            have : r.1 = row.1 := by simpa using hr1
            rw [← this]
            exact List.mem_map_of_mem _ hr)
      · intro u hu
        rcases List.mem_append.mp hu.2 with hud | hu1
        · exact hdisj u ⟨hu.1, hud⟩
        · have : u = row.1 := by simpa using hu1
          exact hw row (List.mem_cons_self _ _) (this ▸ hu.1)

/-- C7: the auto-drop step.  A non-participant whose counter reaches 2 is
deactivated, its own ranking column frozen, every still-active player
ranked below shifted up by one and everyone else untouched, with a drop
notice and no warning; a first miss changes no ranking and no activity at
all, only the counter, with a warning and no drop; and over a whole reset
no player gets both a warning and a drop. -/
theorem inactivity_drop_compaction :
    (∀ (played : List Nat) (s : LadderState) (w d : List Nat) (uid : Nat)
      (snapRank : Int) (snapInm : Nat),
      uid ∈ s.uids → uid ∉ played → 1 ≤ snapInm →
      (autoDropStep played (s, w, d) (uid, snapRank, snapInm)).1.act uid = false ∧
      (autoDropStep played (s, w, d) (uid, snapRank, snapInm)).1.inm uid = snapInm + 1 ∧
      (autoDropStep played (s, w, d) (uid, snapRank, snapInm)).1.rank uid = s.rank uid ∧
      (∀ v, v ≠ uid → s.act v = true → s.rank uid < s.rank v →
        (autoDropStep played (s, w, d) (uid, snapRank, snapInm)).1.rank v = s.rank v - 1) ∧
      (∀ v, v ≠ uid → s.act v = true → s.rank v ≤ s.rank uid →
        (autoDropStep played (s, w, d) (uid, snapRank, snapInm)).1.rank v = s.rank v) ∧
      (∀ v, v ≠ uid → s.act v = false →
        (autoDropStep played (s, w, d) (uid, snapRank, snapInm)).1.rank v = s.rank v) ∧
      (autoDropStep played (s, w, d) (uid, snapRank, snapInm)).2.1 = w ∧
      (autoDropStep played (s, w, d) (uid, snapRank, snapInm)).2.2 = d ++ [uid]) ∧
    (∀ (played : List Nat) (s : LadderState) (w d : List Nat) (uid : Nat) (snapRank : Int),
      uid ∉ played →
      (autoDropStep played (s, w, d) (uid, snapRank, 0)).1.rank = s.rank ∧
      (autoDropStep played (s, w, d) (uid, snapRank, 0)).1.act = s.act ∧
      (autoDropStep played (s, w, d) (uid, snapRank, 0)).1.inm uid = 1 ∧
      (autoDropStep played (s, w, d) (uid, snapRank, 0)).2.1 = w ++ [uid] ∧
      (autoDropStep played (s, w, d) (uid, snapRank, 0)).2.2 = d) ∧
    (∀ (played : List Nat) (s : LadderState), s.uids.Nodup →
      ∀ u, ¬(u ∈ (autoDropPhase played s).2.1 ∧ u ∈ (autoDropPhase played s).2.2)) := by
  refine ⟨?_, ?_, ?_⟩
  · intro played s w d uid snapRank snapInm hmem hnp hsi
    have hstep : autoDropStep played (s, w, d) (uid, snapRank, snapInm) =
        ({ uids := s.uids,
           rank := fun v =>
             if s.rank uid < s.rank v ∧ (if v = uid then false else s.act v) = true
             then s.rank v - 1 else s.rank v,
           act := fun v => if v = uid then false else s.act v,
           inm := fun v => if v = uid then snapInm + 1 else s.inm v }, w, d ++ [uid]) := by
      unfold autoDropStep
      rw [if_neg hnp, if_pos (by omega : 2 ≤ snapInm + 1), getR_mem hmem]
    rw [hstep]
    refine ⟨by simp, by simp, ?_, ?_, ?_, ?_, rfl, rfl⟩
    · simp
    · intro v hvne hact hlt
      simp only
      rw [if_pos ⟨hlt, by rw [if_neg hvne]; exact hact⟩]
    · intro v hvne hact hle
      simp only
      rw [if_neg]
      intro hcon
      omega
    · intro v hvne hact
      simp only
      rw [if_neg]
      intro hcon
      rw [if_neg hvne, hact] at hcon
      exact absurd hcon.2 (by simp)
  · intro played s w d uid snapRank hnp
    have hstep : autoDropStep played (s, w, d) (uid, snapRank, 0) =
        ({ uids := s.uids, rank := s.rank, act := s.act,
           inm := fun v => if v = uid then 1 else s.inm v }, w ++ [uid], d) := by
      unfold autoDropStep
      rw [if_neg hnp, if_neg (by omega : ¬ 2 ≤ 0 + 1), if_pos (by omega : 0 + 1 = 1)]
    rw [hstep]
    exact ⟨rfl, rfl, by simp, rfl, rfl⟩
  · intro played s hnodup u
    unfold autoDropPhase
    apply autoDropFold_excl played _ s [] []
    · simpa [List.map_map, Function.comp_def] using activesSortedByRank_nodup hnodup
    · simp
    · simp
    · simp

/-- C7, witness: in `dropState`, player 2 (rank 2, one recorded inactive
month, no match this cycle) is dropped: deactivated, its own rank frozen
at 2, player 3 shifted from rank 3 to rank 2, and a drop notice emitted. -/
theorem inactivity_drop_compaction_witness :
    (autoDropStep [1, 3] (dropState, [], []) (2, 2, 1)).1.act 2 = false ∧
    (autoDropStep [1, 3] (dropState, [], []) (2, 2, 1)).1.rank 2 = dropState.rank 2 ∧
    (autoDropStep [1, 3] (dropState, [], []) (2, 2, 1)).1.rank 3 = dropState.rank 3 - 1 ∧
    (autoDropStep [1, 3] (dropState, [], []) (2, 2, 1)).2.2 = [] ++ [2] := by
  have h := inactivity_drop_compaction.1 [1, 3] dropState [] [] 2 2 1
    (by decide) (by decide) (by decide)
  exact ⟨h.1, h.2.2.1, h.2.2.2.1 3 (by decide) (by decide) (by decide),
    h.2.2.2.2.2.2.2⟩

theorem assignAll_uids (s : LadderState) (l : List (Nat × Int)) :
    (assignAll s l).uids = s.uids := by
  induction l generalizing s with
  | nil => rfl
  | cons p rest ih => exact ih (setR s p.1 p.2)

theorem assignAll_act (s : LadderState) (l : List (Nat × Int)) :
    (assignAll s l).act = s.act := by
  induction l generalizing s with
  | nil => rfl
  | cons p rest ih => exact ih (setR s p.1 p.2)

theorem assignAll_inm (s : LadderState) (l : List (Nat × Int)) :
    (assignAll s l).inm = s.inm := by
  induction l generalizing s with
  | nil => rfl
  | cons p rest ih => exact ih (setR s p.1 p.2)

theorem assignAll_rank_not_mem {l : List (Nat × Int)} {u : Nat} :
    u ∉ l.map Prod.fst → ∀ s : LadderState, (assignAll s l).rank u = s.rank u := by
  induction l with
  | nil => intro _ s; rfl
  | cons p rest ih =>
    intro h s
    rw [List.map_cons] at h
    have h1 : u ∉ rest.map Prod.fst := fun hc => h (List.mem_cons_of_mem _ hc)
    have h2 : u ≠ p.1 := fun hc => h (hc ▸ List.mem_cons_self _ _)
    rw [show assignAll s (p :: rest) = assignAll (setR s p.1 p.2) rest from rfl,
      ih h1 (setR s p.1 p.2)]
    simp [setR, h2]

theorem assignAll_rank_at {l : List (Nat × Int)} (hnd : (l.map Prod.fst).Nodup) :
    ∀ (s : LadderState) (i : Nat) (hi : i < l.length),
      (assignAll s l).rank (l.get ⟨i, hi⟩).1 = (l.get ⟨i, hi⟩).2 := by
  induction l with
  | nil => intro s i hi; exact absurd hi (by simp)
  | cons p rest ih =>
    intro s i hi
    rw [List.map_cons, List.nodup_cons] at hnd
    match i with
    | 0 =>
      rw [show assignAll s (p :: rest) = assignAll (setR s p.1 p.2) rest from rfl]
      rw [show ((p :: rest).get ⟨0, hi⟩) = p from rfl]
      rw [assignAll_rank_not_mem hnd.1 (setR s p.1 p.2)]
      simp [setR]
    | Nat.succ j =>
      rw [show assignAll s (p :: rest) = assignAll (setR s p.1 p.2) rest from rfl]
      rw [show ((p :: rest).get ⟨j + 1, hi⟩) = rest.get ⟨j, by simpa using hi⟩ from rfl]
      exact ih hnd.2 (setR s p.1 p.2) j _

theorem apply_reseed_eq (s : LadderState) (ps : List (Nat × Int)) (offset : Int)
    (h : ¬ ps.length < 2) :
    apply_reseed s ps offset =
      assignAll
        (assignAll s (ps.enum.map (fun x => (x.2.1, -10000 - offset - (x.1 : Int)))))
        (ps.enum.map (fun x => (x.2.1, offset + (reseedMap (x.1 + 1) : Int) - 1))) := by
  unfold apply_reseed assignAll
  rw [if_neg h, List.foldl_map, List.foldl_map]

theorem enum_value_fst (ps : List (Nat × Int)) (f : Nat × (Nat × Int) → Int) :
    ((ps.enum.map (fun x => (x.2.1, f x))).map Prod.fst) = ps.map Prod.fst := by
  rw [List.map_map]
  have h1 : (Prod.fst ∘ fun x : Nat × (Nat × Int) => (x.2.1, f x)) =
      (Prod.fst ∘ Prod.snd) := rfl
  rw [h1, ← List.map_map, List.enum_map_snd]

theorem reseedMap_bounds : ∀ j, 1 ≤ j → j ≤ 10 → 1 ≤ reseedMap j ∧ reseedMap j ≤ 10 := by
  intro j h1 h2
  interval_cases j <;> decide

/-- C6: `apply_reseed` over positions `1..10` of the active players (the
`i`-th player of the snapshot at previous rank `i`): the `i`-th player is
reassigned rank `RESEED_MAP[i]`; in particular the players previously at
ranks 2 and 4 exchange ranks; everyone outside the ten keeps their rank,
and afterwards ranks 1-10 are occupied by exactly the same ten players. -/
theorem reseed_fixed_permutation
    (s : LadderState) (ps : List (Nat × Int))
    (hlen : ps.length = 10)
    (hnd : (ps.map Prod.fst).Nodup)
    (hranks : ∀ (i : Nat) (hi : i < ps.length), s.rank (ps.get ⟨i, hi⟩).1 = 1 + i)
    (hout : ∀ u, u ∉ ps.map Prod.fst → ¬(1 ≤ s.rank u ∧ s.rank u ≤ 10)) :
    (∀ (i : Nat) (hi : i < ps.length),
      (apply_reseed s ps 1).rank (ps.get ⟨i, hi⟩).1 = (reseedMap (i + 1) : Int)) ∧
    (∀ (h2 : 1 < ps.length) (h4 : 3 < ps.length),
      s.rank (ps.get ⟨1, h2⟩).1 = 2 ∧ (apply_reseed s ps 1).rank (ps.get ⟨1, h2⟩).1 = 4 ∧
      s.rank (ps.get ⟨3, h4⟩).1 = 4 ∧ (apply_reseed s ps 1).rank (ps.get ⟨3, h4⟩).1 = 2) ∧
    (∀ u, u ∉ ps.map Prod.fst → (apply_reseed s ps 1).rank u = s.rank u) ∧
    (∀ u, u ∈ ps.map Prod.fst →
      1 ≤ (apply_reseed s ps 1).rank u ∧ (apply_reseed s ps 1).rank u ≤ 10) ∧
    (∀ u, u ∉ ps.map Prod.fst →
      ¬(1 ≤ (apply_reseed s ps 1).rank u ∧ (apply_reseed s ps 1).rank u ≤ 10)) := by
  have hlt : ¬ ps.length < 2 := by omega
  have heq := apply_reseed_eq s ps 1 hlt
  have hndf : ((ps.enum.map
      (fun x => (x.2.1, 1 + (reseedMap (x.1 + 1) : Int) - 1))).map Prod.fst).Nodup := by
    rw [enum_value_fst]; exact hnd
  have hat : ∀ (i : Nat) (hi : i < ps.length),
      (apply_reseed s ps 1).rank (ps.get ⟨i, hi⟩).1 = (reseedMap (i + 1) : Int) := by
    intro i hi
    rw [heq]
    have hi2 : i < (ps.enum.map
        (fun x => (x.2.1, 1 + (reseedMap (x.1 + 1) : Int) - 1))).length := by
      simpa using hi
    have hget : ((ps.enum.map
        (fun x => (x.2.1, 1 + (reseedMap (x.1 + 1) : Int) - 1))).get ⟨i, hi2⟩) =
        ((ps.get ⟨i, hi⟩).1, 1 + (reseedMap (i + 1) : Int) - 1) := by
      rw [List.get_eq_getElem, List.getElem_map, List.getElem_enum]
      rfl
    have := assignAll_rank_at hndf
      (assignAll s (ps.enum.map (fun x => (x.2.1, -10000 - 1 - (x.1 : Int))))) i hi2
    rw [hget] at this
    rw [this]
    omega
  refine ⟨hat, ?_, ?_, ?_, ?_⟩
  · intro h2 h4
    refine ⟨?_, ?_, ?_, ?_⟩
    · rw [hranks 1 h2]; norm_num
    · rw [hat 1 h2]; decide
    · rw [hranks 3 h4]; norm_num
    · rw [hat 3 h4]; decide
  · intro u hu
    rw [heq, assignAll_rank_not_mem (by rw [enum_value_fst]; exact hu) _,
      assignAll_rank_not_mem (by rw [enum_value_fst]; exact hu) s]
  · intro u hu
    obtain ⟨x, hx, hxu⟩ := List.mem_map.mp hu
    obtain ⟨i, hi⟩ := List.mem_iff_get.mp hx
    have := hat i.1 i.2
    rw [show ps.get ⟨i.1, i.2⟩ = x from hi ▸ rfl, hxu] at this
    rw [this]
    have hb := reseedMap_bounds (i.1 + 1) (by omega) (by
      have := i.2
      omega)
    constructor <;> [exact_mod_cast hb.1; exact_mod_cast hb.2]
  · intro u hu
    have hsame : (apply_reseed s ps 1).rank u = s.rank u := by
      rw [heq, assignAll_rank_not_mem (by rw [enum_value_fst]; exact hu) _,
        assignAll_rank_not_mem (by rw [enum_value_fst]; exact hu) s]
    rw [hsame]
    exact hout u hu

/-- C6, witness: ten active players `1..10` at ranks `1..10`; after the
top-10 reseed, the rank-2 player holds rank 4, the rank-4 player holds
rank 2, the rank-3 player holds rank 7, and a player outside the ten is
untouched. -/
theorem reseed_fixed_permutation_witness :
    (apply_reseed tenState tenPairs 1).rank 2 = 4 ∧
    (apply_reseed tenState tenPairs 1).rank 4 = 2 ∧
    (apply_reseed tenState tenPairs 1).rank 3 = 7 ∧
    (apply_reseed tenState tenPairs 1).rank 11 = tenState.rank 11 := by
  have h := reseed_fixed_permutation tenState tenPairs rfl (by decide)
    (by
      intro i hi
      have hb : i < 10 := by simpa [tenPairs] using hi
      interval_cases i <;> norm_num [tenState, tenPairs])
    (by
      intro u hu
      simp only [tenPairs, List.map_cons, List.map_nil, List.mem_cons,
        List.not_mem_nil, or_false] at hu
      simp only [tenState]
      push_neg
      intro h1
      omega)
  refine ⟨(h.2.1 (by decide) (by decide)).2.1, (h.2.1 (by decide) (by decide)).2.2.2, ?_, ?_⟩
  · exact (h.1 2 (by decide)).trans (by decide)
  · exact h.2.2.1 11 (by decide)

theorem activeRanksPerm_swap {s : LadderState} {n : Int} (hp : activeRanksPerm s n)
    {u v : Nat} (hu : u ∈ s.uids) (hv : v ∈ s.uids)
    (hau : s.act u = true) (hav : s.act v = true) :
    activeRanksPerm (setR (setR s u (s.rank v)) v (s.rank u)) n := by
  obtain ⟨hrange, hinj, hsurj⟩ := hp
  have hrank : ∀ w, (setR (setR s u (s.rank v)) v (s.rank u)).rank w =
      if w = v then s.rank u else if w = u then s.rank v else s.rank w := fun w => rfl
  refine ⟨?_, ?_, ?_⟩
  · intro w hw haw
    rw [hrank w]
    by_cases h1 : w = v
    · rw [if_pos h1]; exact hrange u hu hau
    · rw [if_neg h1]
      by_cases h2 : w = u
      · rw [if_pos h2]; exact hrange v hv hav
      · rw [if_neg h2]; exact hrange w hw haw
  · intro w hw w2 hw2 haw haw2 heq
    rw [hrank w, hrank w2] at heq
    by_cases h1 : w = v
    · rw [if_pos h1] at heq
      by_cases h2 : w2 = v
      · rw [h1, h2]
      · rw [if_neg h2] at heq
        by_cases h3 : w2 = u
        · rw [if_pos h3] at heq
          have := hinj u hu v hv hau hav heq
          rw [h1, h3, this]
        · rw [if_neg h3] at heq
          have := hinj u hu w2 hw2 hau haw2 heq
          exact absurd this.symm h3
    · rw [if_neg h1] at heq
      by_cases h2 : w = u
      · rw [if_pos h2] at heq
        by_cases h3 : w2 = v
        · rw [if_pos h3] at heq
          have := hinj v hv u hu hav hau heq
          rw [h2, h3, this]
        · rw [if_neg h3] at heq
          by_cases h4 : w2 = u
          · rw [h2, h4]
          · rw [if_neg h4] at heq
            have := hinj v hv w2 hw2 hav haw2 heq
            exact absurd this.symm h3
      · rw [if_neg h2] at heq
        by_cases h3 : w2 = v
        · rw [if_pos h3] at heq
          have := hinj w hw u hu haw hau heq
          exact absurd this h2
        · rw [if_neg h3] at heq
          by_cases h4 : w2 = u
          · rw [if_pos h4] at heq
            have := hinj w hw v hv haw hav heq
            exact absurd this h1
          · rw [if_neg h4] at heq
            exact hinj w hw w2 hw2 haw haw2 heq
  · intro q h1 h2
    obtain ⟨w, hw, haw, hrw⟩ := hsurj q h1 h2
    by_cases hwu : w = u
    · refine ⟨v, hv, hav, ?_⟩
      rw [hrank v, if_pos rfl, ← hwu, hrw]
    · by_cases hwv : w = v
      · refine ⟨u, hu, hau, ?_⟩
        have huv : u ≠ v := fun h => hwu (hwv.trans h.symm)
        rw [hrank u, if_neg huv, if_pos rfl, ← hwv, hrw]
      · exact ⟨w, hw, haw, by rw [hrank w, if_neg hwv, if_neg hwu, hrw]⟩

theorem doSwapUp_perm {s : LadderState} {n : Int} (hp : activeRanksPerm s n)
    (hall : ∀ u ∈ s.uids, s.act u = true) {top : Nat} (htop : top ∈ s.uids) :
    activeRanksPerm (doSwapUp s top) n := by
  unfold doSwapUp
  cases hf : findByRank s (getR s top 1 - 1) with
  | none => exact hp
  | some a =>
    obtain ⟨ha, hra⟩ := findByRank_eq_some hf
    have h1 : getR s top 1 = s.rank top := getR_mem htop 1
    rw [h1]
    rw [h1] at hra
    rw [← hra]
    exact activeRanksPerm_swap ⟨hp.1, hp.2.1, hp.2.2⟩ htop ha (hall top htop) (hall a ha)

theorem doSwapDown_perm {s : LadderState} {n : Int} (hp : activeRanksPerm s n)
    (hall : ∀ u ∈ s.uids, s.act u = true) {bottom : Nat} (hbot : bottom ∈ s.uids) :
    activeRanksPerm (doSwapDown s bottom) n := by
  unfold doSwapDown
  cases hf : findByRank s (getR s bottom 1 + 1) with
  | none => exact hp
  | some b =>
    obtain ⟨hb, hrb⟩ := findByRank_eq_some hf
    have h1 : getR s bottom 1 = s.rank bottom := getR_mem hbot 1
    rw [h1]
    rw [h1] at hrb
    rw [← hrb]
    exact activeRanksPerm_swap ⟨hp.1, hp.2.1, hp.2.2⟩ hbot hb (hall bottom hbot) (hall b hb)

theorem doSwapUp_uids (s : LadderState) (top : Nat) :
    (doSwapUp s top).uids = s.uids ∧ (doSwapUp s top).act = s.act := by
  unfold doSwapUp
  cases findByRank s (getR s top 1 - 1) <;> exact ⟨rfl, rfl⟩

theorem doSwapDown_uids (s : LadderState) (bottom : Nat) :
    (doSwapDown s bottom).uids = s.uids ∧ (doSwapDown s bottom).act = s.act := by
  unfold doSwapDown
  cases findByRank s (getR s bottom 1 + 1) <;> exact ⟨rfl, rfl⟩

theorem doUpIf_uids (mov : Nat → Option String) (s : LadderState) (top : Nat) :
    (doUpIf mov s top).uids = s.uids ∧ (doUpIf mov s top).act = s.act := by
  unfold doUpIf
  split
  · exact doSwapUp_uids s top
  · exact ⟨rfl, rfl⟩

theorem doDownIf_uids (mov : Nat → Option String) (s : LadderState) (bottom : Nat) :
    (doDownIf mov s bottom).uids = s.uids ∧ (doDownIf mov s bottom).act = s.act := by
  unfold doDownIf
  split
  · exact doSwapDown_uids s bottom
  · exact ⟨rfl, rfl⟩

theorem getLastD_cases {α : Type} : ∀ (l : List α) (a : α), l.getLastD a = a ∨ l.getLastD a ∈ l := by
  intro l
  induction l with
  | nil => intro a; exact Or.inl rfl
  | cons x xs ih =>
    intro a
    rw [List.getLastD_cons]
    rcases ih x with h | h
    · exact Or.inr (by rw [h]; exact List.mem_cons_self _ _)
    · exact Or.inr (List.mem_cons_of_mem _ h)

theorem applyGroupSwaps_uids (mov : Nat → Option String) (s : LadderState) (g : MGroup) :
    (applyGroupSwaps mov s g).uids = s.uids ∧ (applyGroupSwaps mov s g).act = s.act := by
  unfold applyGroupSwaps
  cases sortOn (fun pid => getR s pid 999) (memberIds g) with
  | nil => exact ⟨rfl, rfl⟩
  | cons top rest =>
    have h1 := doUpIf_uids mov s top
    have h2 := doDownIf_uids mov (doUpIf mov s top) ((top :: rest).getLastD top)
    exact ⟨h2.1.trans h1.1, h2.2.trans h1.2⟩

theorem applyGroupSwaps_perm {mov : Nat → Option String} {s : LadderState} {g : MGroup}
    {n : Int} (hp : activeRanksPerm s n)
    (hall : ∀ u ∈ s.uids, s.act u = true)
    (hmem : ∀ p ∈ memberIds g, p ∈ s.uids) :
    activeRanksPerm (applyGroupSwaps mov s g) n := by
  unfold applyGroupSwaps
  cases hsp : sortOn (fun pid => getR s pid 999) (memberIds g) with
  | nil => exact hp
  | cons top rest =>
    have hmem2 : ∀ p ∈ top :: rest, p ∈ s.uids := by
      intro p hpm
      rw [← hsp] at hpm
      exact hmem p ((sortOn_perm (fun pid => getR s pid 999) (memberIds g)).mem_iff.mp hpm)
    have htop : top ∈ s.uids := hmem2 top (List.mem_cons_self _ _)
    have hbot : (top :: rest).getLastD top ∈ s.uids := by
      rcases getLastD_cases (top :: rest) top with h | h
      · rw [h]; exact htop
      · exact hmem2 _ h
    have hu1 := doUpIf_uids mov s top
    have hp1 : activeRanksPerm (doUpIf mov s top) n := by
      unfold doUpIf
      split
      · exact doSwapUp_perm hp hall htop
      · exact hp
    have hall1 : ∀ u ∈ (doUpIf mov s top).uids, (doUpIf mov s top).act u = true := by
      rw [hu1.1]
      intro u hu
      rw [hu1.2]
      exact hall u hu
    have hbot1 : (top :: rest).getLastD top ∈ (doUpIf mov s top).uids := by
      rw [hu1.1]; exact hbot
    show activeRanksPerm (doDownIf mov (doUpIf mov s top) ((top :: rest).getLastD top)) n
    unfold doDownIf
    split
    · exact doSwapDown_perm hp1 hall1 hbot1
    · exact hp1

theorem swapPhase_uids (mov : Nat → Option String) :
    ∀ (groups : List MGroup) (s : LadderState),
      (swapPhase mov s groups).uids = s.uids ∧ (swapPhase mov s groups).act = s.act := by
  intro groups
  induction groups with
  | nil => intro s; exact ⟨rfl, rfl⟩
  | cons g rest ih =>
    intro s
    have h1 := applyGroupSwaps_uids mov s g
    have h2 := ih (applyGroupSwaps mov s g)
    exact ⟨h2.1.trans h1.1, h2.2.trans h1.2⟩

theorem swapPhase_perm {mov : Nat → Option String} {n : Int} :
    ∀ (groups : List MGroup) (s : LadderState), activeRanksPerm s n →
      (∀ u ∈ s.uids, s.act u = true) →
      (∀ g ∈ groups, ∀ p ∈ memberIds g, p ∈ s.uids) →
      activeRanksPerm (swapPhase mov s groups) n := by
  intro groups
  induction groups with
  | nil => intro s hp _ _; exact hp
  | cons g rest ih =>
    intro s hp hall hmem
    have hu := applyGroupSwaps_uids mov s g
    refine ih (applyGroupSwaps mov s g)
      (applyGroupSwaps_perm hp hall (hmem g (List.mem_cons_self _ _))) ?_ ?_
    · rw [hu.1]
      intro u huu
      rw [hu.2]
      exact hall u huu
    · rw [hu.1]
      intro g2 hg2
      exact hmem g2 (List.mem_cons_of_mem _ hg2)

theorem activesSorted_perm_uids {s : LadderState}
    (hall : ∀ u ∈ s.uids, s.act u = true) :
    (activesSortedByRank s).Perm s.uids := by
  unfold activesSortedByRank
  have hf : s.uids.filter (fun u => s.act u) = s.uids :=
    List.filter_eq_self.mpr (fun a ha => by simpa using hall a ha)
  rw [hf]
  exact sortOn_perm _ _

theorem sortOn_sorted {α : Type} (key : α → Int) (l : List α) :
    List.Sorted (fun a b => key a ≤ key b) (sortOn key l) := by
  haveI h1 : IsTotal α (fun a b => key a ≤ key b) := ⟨fun a b => le_total (key a) (key b)⟩
  haveI h2 : IsTrans α (fun a b => key a ≤ key b) := ⟨fun a b c hab hbc => le_trans hab hbc⟩
  exact List.sorted_insertionSort _ l

theorem sorted_actives_ranks {s : LadderState}
    (hall : ∀ u ∈ s.uids, s.act u = true) (hnd : s.uids.Nodup)
    (hp : activeRanksPerm s (s.uids.length : Int)) :
    ∀ (i : Nat) (hi : i < (activesSortedByRank s).length),
      s.rank ((activesSortedByRank s).get ⟨i, hi⟩) = 1 + i := by
  have hpermA : (activesSortedByRank s).Perm s.uids := activesSorted_perm_uids hall
  have hndA : (activesSortedByRank s).Nodup := hpermA.nodup_iff.mpr hnd
  have hmemA : ∀ u, u ∈ activesSortedByRank s ↔ u ∈ s.uids := fun u => hpermA.mem_iff
  have hlenA : (activesSortedByRank s).length = s.uids.length := hpermA.length_eq
  -- the sorted rank list equals [1, 2, ..., N]
  have hmapeq : (activesSortedByRank s).map s.rank =
      (List.range (activesSortedByRank s).length).map (fun i : Nat => 1 + (i : Int)) := by
    refine @List.eq_of_perm_of_sorted Int (· ≤ ·) inferInstance _ _ ?_ ?_ ?_
    · apply List.perm_of_nodup_nodup_toFinset_eq
      · refine List.Nodup.map_on ?_ hndA
        intro x hx y hy hxy
        exact hp.2.1 x ((hmemA x).mp hx) y ((hmemA y).mp hy)
          (hall x ((hmemA x).mp hx)) (hall y ((hmemA y).mp hy)) hxy
      · refine List.Nodup.map_on ?_ (List.nodup_range _)
        intro x _ y _ hxy
        omega
      · apply Finset.ext
        intro q
        rw [List.mem_toFinset, List.mem_toFinset, List.mem_map, List.mem_map]
        constructor
        · rintro ⟨u, hu, rfl⟩
          have h1 := hp.1 u ((hmemA u).mp hu) (hall u ((hmemA u).mp hu))
          refine ⟨(s.rank u - 1).toNat, ?_, ?_⟩
          · rw [List.mem_range]
            omega
          · omega
        · rintro ⟨i, hi, rfl⟩
          rw [List.mem_range] at hi
          obtain ⟨u, hu, hau, hru⟩ := hp.2.2 (1 + (i : Int)) (by omega)
            (by rw [hlenA] at hi; omega)
          exact ⟨u, (hmemA u).mpr hu, hru⟩
    · have hs := sortOn_sorted (fun u => s.rank u) (s.uids.filter (fun u => s.act u))
      have : List.Sorted (fun a b => s.rank a ≤ s.rank b) (activesSortedByRank s) := hs
      rw [List.Sorted, List.pairwise_map]
      exact this
    · rw [List.Sorted, List.pairwise_map]
      have : List.Pairwise (· < ·) (List.range (activesSortedByRank s).length) :=
        List.pairwise_lt_range _
      exact this.imp (fun h => by omega)
  intro i hi
  have h1 : ((activesSortedByRank s).map s.rank).get
      ⟨i, by rw [List.length_map]; exact hi⟩ = s.rank ((activesSortedByRank s).get ⟨i, hi⟩) := by
    rw [List.get_eq_getElem, List.get_eq_getElem, List.getElem_map]
  rw [← h1]
  have h2 : (((List.range (activesSortedByRank s).length).map (fun i : Nat => 1 + (i : Int)))).get
      ⟨i, by rw [List.length_map, List.length_range]; exact hi⟩ = 1 + (i : Int) := by
    rw [List.get_eq_getElem, List.getElem_map, List.getElem_range]
  rw [List.get_of_eq hmapeq]
  exact h2

theorem apply_reseed_rank_at (s : LadderState) (offset : Int) {ps : List (Nat × Int)}
    (hlen2 : 2 ≤ ps.length) (hnd : (ps.map Prod.fst).Nodup) :
    (∀ (i : Nat) (hi : i < ps.length),
      (apply_reseed s ps offset).rank (ps.get ⟨i, hi⟩).1 =
        offset + (reseedMap (i + 1) : Int) - 1) ∧
    (∀ u, u ∉ ps.map Prod.fst → (apply_reseed s ps offset).rank u = s.rank u) ∧
    (apply_reseed s ps offset).uids = s.uids ∧ (apply_reseed s ps offset).act = s.act ∧
    (apply_reseed s ps offset).inm = s.inm := by
  have hlt : ¬ ps.length < 2 := by omega
  have heq := apply_reseed_eq s ps offset hlt
  have hndf : ((ps.enum.map
      (fun x => (x.2.1, offset + (reseedMap (x.1 + 1) : Int) - 1))).map Prod.fst).Nodup := by
    rw [enum_value_fst]; exact hnd
  refine ⟨?_, ?_, ?_, ?_, ?_⟩
  · intro i hi
    rw [heq]
    have hi2 : i < (ps.enum.map
        (fun x => (x.2.1, offset + (reseedMap (x.1 + 1) : Int) - 1))).length := by
      simpa using hi
    have hget : ((ps.enum.map
        (fun x => (x.2.1, offset + (reseedMap (x.1 + 1) : Int) - 1))).get ⟨i, hi2⟩) =
        ((ps.get ⟨i, hi⟩).1, offset + (reseedMap (i + 1) : Int) - 1) := by
      rw [List.get_eq_getElem, List.getElem_map, List.getElem_enum]
      rfl
    have h3 := assignAll_rank_at hndf
      (assignAll s (ps.enum.map (fun x => (x.2.1, -10000 - offset - (x.1 : Int))))) i hi2
    rw [hget] at h3
    exact h3
  · intro u hu
    rw [heq, assignAll_rank_not_mem (by rw [enum_value_fst]; exact hu) _,
      assignAll_rank_not_mem (by rw [enum_value_fst]; exact hu) s]
  · rw [heq, assignAll_uids, assignAll_uids]
  · rw [heq, assignAll_act, assignAll_act]
  · rw [heq, assignAll_inm, assignAll_inm]

theorem reseedMap_inj : ∀ i j, 1 ≤ i → i ≤ 10 → 1 ≤ j → j ≤ 10 →
    reseedMap i = reseedMap j → i = j := by
  intro i j hi1 hi2 hj1 hj2
  interval_cases i <;> interval_cases j <;> decide

theorem reseedMap_surj : ∀ m, 1 ≤ m → m ≤ 10 →
    ∃ i, 1 ≤ i ∧ i ≤ 10 ∧ reseedMap i = m := by
  intro m h1 h2
  interval_cases m
  · exact ⟨1, by decide, by decide, by decide⟩
  · exact ⟨4, by decide, by decide, by decide⟩
  · exact ⟨7, by decide, by decide, by decide⟩
  · exact ⟨2, by decide, by decide, by decide⟩
  · exact ⟨5, by decide, by decide, by decide⟩
  · exact ⟨8, by decide, by decide, by decide⟩
  · exact ⟨3, by decide, by decide, by decide⟩
  · exact ⟨6, by decide, by decide, by decide⟩
  · exact ⟨10, by decide, by decide, by decide⟩
  · exact ⟨9, by decide, by decide, by decide⟩

theorem apply_reseed_block_perm {s : LadderState} {n offset : Int}
    (hp : activeRanksPerm s n)
    (hall : ∀ u ∈ s.uids, s.act u = true)
    {ps : List (Nat × Int)}
    (hlen : ps.length = 10)
    (hnd10 : (ps.map Prod.fst).Nodup)
    (hmem10 : ∀ u ∈ ps.map Prod.fst, u ∈ s.uids)
    (hzone : ∀ (i : Nat) (hi : i < ps.length), s.rank (ps.get ⟨i, hi⟩).1 = offset + i) :
    activeRanksPerm (apply_reseed s ps offset) n := by
  have hlen2 : 2 ≤ ps.length := by omega
  obtain ⟨hat, hother, huids, hact, -⟩ := apply_reseed_rank_at s offset hlen2 hnd10
  have hmemget : ∀ (i : Nat) (hi : i < ps.length), (ps.get ⟨i, hi⟩).1 ∈ s.uids := by
    intro i hi
    exact hmem10 _ (List.mem_map_of_mem _ (ps.get_mem i hi))
  have hoff1 : 1 ≤ offset ∧ offset + 9 ≤ n := by
    have h0 := hzone 0 (by omega)
    have h9 := hzone 9 (by omega)
    have hb0 := hp.1 _ (hmemget 0 (by omega)) (hall _ (hmemget 0 (by omega)))
    have hb9 := hp.1 _ (hmemget 9 (by omega)) (hall _ (hmemget 9 (by omega)))
    rw [h0] at hb0
    rw [h9] at hb9
    constructor <;> omega
  -- a uid outside the block has rank outside [offset, offset + 9]
  have houtzone : ∀ u, u ∈ s.uids → s.act u = true → u ∉ ps.map Prod.fst →
      ¬(offset ≤ s.rank u ∧ s.rank u ≤ offset + 9) := by
    intro u hu hau hups hcon
    have hj : ((s.rank u - offset).toNat) < ps.length := by omega
    have hzj := hzone _ hj
    have : s.rank ((ps.get ⟨(s.rank u - offset).toNat, hj⟩).1) = s.rank u := by
      rw [hzj]; omega
    have heqq := hp.2.1 u hu _ (hmemget _ hj) hau (hall _ (hmemget _ hj)) this.symm
    exact hups (heqq ▸ List.mem_map_of_mem _ (ps.get_mem _ hj))
  refine ⟨?_, ?_, ?_⟩
  · intro u hu hau
    rw [huids] at hu
    rw [hact] at hau
    by_cases hups : u ∈ ps.map Prod.fst
    · obtain ⟨x, hx, hxu⟩ := List.mem_map.mp hups
      obtain ⟨idx, hidx⟩ := List.mem_iff_get.mp hx
      have h1 := hat idx.1 idx.2
      rw [show ps.get ⟨idx.1, idx.2⟩ = x from hidx ▸ rfl, hxu] at h1
      rw [h1]
      have hb := reseedMap_bounds (idx.1 + 1) (by omega) (by have := idx.2; omega)
      omega
    · rw [hother u hups]
      exact hp.1 u hu hau
  · intro u hu v hv hau hav heq
    rw [huids] at hu hv
    rw [hact] at hau hav
    by_cases hups : u ∈ ps.map Prod.fst <;> by_cases hvps : v ∈ ps.map Prod.fst
    · obtain ⟨x, hx, hxu⟩ := List.mem_map.mp hups
      obtain ⟨idx, hidx⟩ := List.mem_iff_get.mp hx
      obtain ⟨y, hy, hyv⟩ := List.mem_map.mp hvps
      obtain ⟨jdx, hjdx⟩ := List.mem_iff_get.mp hy
      have h1 := hat idx.1 idx.2
      rw [show ps.get ⟨idx.1, idx.2⟩ = x from hidx ▸ rfl, hxu] at h1
      have h2 := hat jdx.1 jdx.2
      rw [show ps.get ⟨jdx.1, jdx.2⟩ = y from hjdx ▸ rfl, hyv] at h2
      rw [h1, h2] at heq
      have hij : idx.1 + 1 = jdx.1 + 1 := by
        apply reseedMap_inj _ _ (by omega) (by have := idx.2; omega)
          (by omega) (by have := jdx.2; omega)
        omega
      have : idx.1 = jdx.1 := by omega
      rw [← hxu, ← hyv, ← hidx, ← hjdx, show idx = jdx from Fin.ext this]
    · -- u in the block, v outside: v's old rank cannot land in the block range
      exfalso
      obtain ⟨x, hx, hxu⟩ := List.mem_map.mp hups
      obtain ⟨idx, hidx⟩ := List.mem_iff_get.mp hx
      have h1 := hat idx.1 idx.2
      rw [show ps.get ⟨idx.1, idx.2⟩ = x from hidx ▸ rfl, hxu] at h1
      rw [h1, hother v hvps] at heq
      have hb := reseedMap_bounds (idx.1 + 1) (by omega) (by have := idx.2; omega)
      exact houtzone v hv hav hvps (by omega)
    · exfalso
      obtain ⟨y, hy, hyv⟩ := List.mem_map.mp hvps
      obtain ⟨jdx, hjdx⟩ := List.mem_iff_get.mp hy
      have h2 := hat jdx.1 jdx.2
      rw [show ps.get ⟨jdx.1, jdx.2⟩ = y from hjdx ▸ rfl, hyv] at h2
      rw [h2, hother u hups] at heq
      have hb := reseedMap_bounds (jdx.1 + 1) (by omega) (by have := jdx.2; omega)
      exact houtzone u hu hau hups (by omega)
    · rw [hother u hups, hother v hvps] at heq
      exact hp.2.1 u hu v hv hau hav heq
  · intro q h1 h2
    by_cases hq : offset ≤ q ∧ q ≤ offset + 9
    · obtain ⟨m, hm1, hm2, hm3⟩ := reseedMap_surj ((q - offset).toNat + 1)
        (by omega) (by omega)
      have hmlt : m - 1 < ps.length := by omega
      refine ⟨(ps.get ⟨m - 1, hmlt⟩).1, ?_, ?_, ?_⟩
      · rw [huids]; exact hmemget _ hmlt
      · rw [hact]; exact hall _ (hmemget _ hmlt)
      · have h3 := hat (m - 1) hmlt
        rw [h3]
        have : m - 1 + 1 = m := by omega
        rw [this, hm3]
        omega
    · obtain ⟨w, hw, haw, hrw⟩ := hp.2.2 q h1 h2
      have hwps : w ∉ ps.map Prod.fst := by
        intro hcon
        obtain ⟨x, hx, hxw⟩ := List.mem_map.mp hcon
        obtain ⟨idx, hidx⟩ := List.mem_iff_get.mp hx
        have hz := hzone idx.1 idx.2
        rw [show ps.get ⟨idx.1, idx.2⟩ = x from hidx ▸ rfl, hxw, hrw] at hz
        have := idx.2
        exact hq (by omega)
      refine ⟨w, ?_, ?_, ?_⟩
      · rw [huids]; exact hw
      · rw [hact]; exact haw
      · rw [hother w hwps, hrw]

theorem reseedTop10_facts {s : LadderState}
    (hall : ∀ u ∈ s.uids, s.act u = true) (hnd : s.uids.Nodup)
    (hp : activeRanksPerm s (s.uids.length : Int)) :
    activeRanksPerm (reseedTop10 s) (s.uids.length : Int) ∧
    (reseedTop10 s).uids = s.uids ∧ (reseedTop10 s).act = s.act ∧
    (∀ u, u ∉ (activesSortedByRank s).take 10 → (reseedTop10 s).rank u = s.rank u) := by
  have hpermA : (activesSortedByRank s).Perm s.uids := activesSorted_perm_uids hall
  have hndA : (activesSortedByRank s).Nodup := hpermA.nodup_iff.mpr hnd
  have hranksA := sorted_actives_ranks hall hnd hp
  unfold reseedTop10
  by_cases h10 : 10 ≤ (activesSortedByRank s).length
  · rw [if_pos h10]
    have hfst : (((activesSortedByRank s).take 10).map
        (fun u => (u, s.rank u))).map Prod.fst = (activesSortedByRank s).take 10 := by
      rw [List.map_map,
        show (Prod.fst ∘ fun u : Nat => (u, s.rank u)) = id from rfl, List.map_id]
    have hlen : (((activesSortedByRank s).take 10).map
        (fun u => (u, s.rank u))).length = 10 := by
      rw [List.length_map, List.length_take]
      omega
    have hnd10 : ((((activesSortedByRank s).take 10).map
        (fun u => (u, s.rank u))).map Prod.fst).Nodup := by
      rw [hfst]
      exact List.Nodup.sublist (List.take_sublist _ _) hndA
    have hmem10 : ∀ u ∈ (((activesSortedByRank s).take 10).map
        (fun u => (u, s.rank u))).map Prod.fst, u ∈ s.uids := by
      rw [hfst]
      intro u hu
      exact hpermA.mem_iff.mp (List.mem_of_mem_take hu)
    have hzone : ∀ (i : Nat) (hi : i < (((activesSortedByRank s).take 10).map
        (fun u => (u, s.rank u))).length),
        s.rank ((((activesSortedByRank s).take 10).map
          (fun u => (u, s.rank u))).get ⟨i, hi⟩).1 = 1 + (i : Int) := by
      intro i hi
      have hi10 : i < 10 := by omega
      have hiA : i < (activesSortedByRank s).length := by omega
      have hget : ((((activesSortedByRank s).take 10).map
          (fun u => (u, s.rank u))).get ⟨i, hi⟩).1 =
          (activesSortedByRank s).get ⟨i, hiA⟩ := by
        rw [List.get_eq_getElem, List.getElem_map, List.getElem_take]
        rfl
      rw [hget]
      exact hranksA i hiA
    obtain ⟨hat, hother, huids, hact, -⟩ := apply_reseed_rank_at s 1 (by omega) hnd10
    refine ⟨apply_reseed_block_perm hp hall hlen hnd10 hmem10 hzone, huids, hact, ?_⟩
    intro u hu
    exact hother u (by rw [hfst]; exact hu)
  · rw [if_neg h10]
    exact ⟨hp, rfl, rfl, fun _ _ => rfl⟩

theorem reseedPhase_perm {s : LadderState}
    (hall : ∀ u ∈ s.uids, s.act u = true) (hnd : s.uids.Nodup)
    (hp : activeRanksPerm s (s.uids.length : Int)) :
    activeRanksPerm (reseedPhase s) (s.uids.length : Int) ∧
    (reseedPhase s).uids = s.uids ∧ (reseedPhase s).act = s.act := by
  have hpermA : (activesSortedByRank s).Perm s.uids := activesSorted_perm_uids hall
  have hndA : (activesSortedByRank s).Nodup := hpermA.nodup_iff.mpr hnd
  have hranksA := sorted_actives_ranks hall hnd hp
  obtain ⟨hp1, huids1, hact1, hframe1⟩ := reseedTop10_facts hall hnd hp
  unfold reseedPhase
  by_cases h20 : 20 ≤ (activesSortedByRank s).length
  · rw [if_pos h20]
    cases hdrop : (activesSortedByRank s).drop ((activesSortedByRank s).length - 10) with
    | nil => exact ⟨hp1, huids1, hact1⟩
    | cons u rest =>
      have hall1 : ∀ x ∈ (reseedTop10 s).uids, (reseedTop10 s).act x = true := by
        rw [huids1]
        intro x hx
        rw [hact1]
        exact hall x hx
      have hdlen : (u :: rest).length = 10 := by
        rw [← hdrop, List.length_drop]
        omega
      have hfst2 : ((u :: rest).map (fun v => (v, s.rank v))).map Prod.fst = u :: rest := by
        rw [List.map_map,
          show (Prod.fst ∘ fun v : Nat => (v, s.rank v)) = id from rfl, List.map_id]
      have hlen2 : ((u :: rest).map (fun v => (v, s.rank v))).length = 10 := by
        rw [List.length_map, hdlen]
      have hnd2 : (((u :: rest).map (fun v => (v, s.rank v))).map Prod.fst).Nodup := by
        rw [hfst2, ← hdrop]
        exact List.Nodup.sublist (List.drop_sublist _ _) hndA
      have hmem2 : ∀ x ∈ ((u :: rest).map (fun v => (v, s.rank v))).map Prod.fst,
          x ∈ (reseedTop10 s).uids := by
        rw [hfst2, huids1, ← hdrop]
        intro x hx
        exact hpermA.mem_iff.mp (List.mem_of_mem_drop hx)
      -- the i-th bottom player is the (total - 10 + i)-th sorted active player
      have hgetd : ∀ (i : Nat) (hi : i < (u :: rest).length),
          ∃ (hb : (activesSortedByRank s).length - 10 + i < (activesSortedByRank s).length),
          (u :: rest).get ⟨i, hi⟩ =
            (activesSortedByRank s).get ⟨(activesSortedByRank s).length - 10 + i, hb⟩ := by
        intro i hi
        have hi10 : i < 10 := by rw [hdlen] at hi; exact hi
        refine ⟨by omega, ?_⟩
        have h1 := List.get_of_eq hdrop.symm ⟨i, hi⟩
        rw [h1]
        rw [List.get_eq_getElem, List.get_eq_getElem, List.getElem_drop]
      have hranku : s.rank u = 1 + ((activesSortedByRank s).length - 10 : Nat) := by
        obtain ⟨hb, hg⟩ := hgetd 0 (by rw [hdlen]; omega)
        have : u = (activesSortedByRank s).get
            ⟨(activesSortedByRank s).length - 10 + 0, hb⟩ := hg
        rw [this, hranksA]
        omega
      have hzone2 : ∀ (i : Nat) (hi : i < ((u :: rest).map (fun v => (v, s.rank v))).length),
          (reseedTop10 s).rank ((((u :: rest).map (fun v => (v, s.rank v))).get ⟨i, hi⟩).1) =
            s.rank u + (i : Int) := by
        intro i hi
        have hi' : i < (u :: rest).length := by rw [List.length_map] at hi; exact hi
        have hg1 : ((((u :: rest).map (fun v => (v, s.rank v))).get ⟨i, hi⟩).1) =
            (u :: rest).get ⟨i, hi'⟩ := by
          rw [List.get_eq_getElem, List.getElem_map]
          rfl
        obtain ⟨hb, hg2⟩ := hgetd i hi'
        have hmemdrop : (u :: rest).get ⟨i, hi'⟩ ∈
            (activesSortedByRank s).drop ((activesSortedByRank s).length - 10) := by
          rw [hdrop]
          exact (u :: rest).get_mem i hi'
        have hnottake : (u :: rest).get ⟨i, hi'⟩ ∉ (activesSortedByRank s).take 10 := by
          intro hcon
          exact List.disjoint_take_drop hndA (by omega) hcon hmemdrop
        rw [hg1, hframe1 _ hnottake, hg2, hranksA]
        rw [hranku]
        push_cast
        omega
      obtain ⟨-, -, huids2, hact2, -⟩ := apply_reseed_rank_at
        (reseedTop10 s) (s.rank u) (by omega) hnd2
      refine ⟨apply_reseed_block_perm hp1 hall1 hlen2 hnd2 hmem2 hzone2, ?_, ?_⟩
      · rw [huids2, huids1]
      · rw [hact2, hact1]
  · rw [if_neg h20]
    exact ⟨hp1, huids1, hact1⟩

theorem drop_compact_perm {st s2 : LadderState} {m : Int} (hp : activeRanksPerm st m)
    {uid : Nat} (hu : uid ∈ st.uids) (hau : st.act uid = true)
    (huids : s2.uids = st.uids)
    (hact : ∀ v, s2.act v = (if v = uid then false else st.act v))
    (hrank : ∀ v, s2.rank v = (if st.rank uid < st.rank v ∧
        (if v = uid then false else st.act v) = true then st.rank v - 1 else st.rank v)) :
    activeRanksPerm s2 (m - 1) := by
  obtain ⟨hrange, hinj, hsurj⟩ := hp
  obtain ⟨hr1, hr2⟩ := hrange uid hu hau
  have hrank2 : ∀ v, v ≠ uid → st.act v = true →
      s2.rank v = (if st.rank uid < st.rank v then st.rank v - 1 else st.rank v) := by
    intro v hvne hav
    rw [hrank v]
    by_cases hgt : st.rank uid < st.rank v
    · rw [if_pos ⟨hgt, by rw [if_neg hvne]; exact hav⟩, if_pos hgt]
    · rw [if_neg (fun hc => hgt hc.1), if_neg hgt]
  have hactv : ∀ v, s2.act v = true → v ≠ uid ∧ st.act v = true := by
    intro v hav
    rw [hact v] at hav
    by_cases h : v = uid
    · rw [if_pos h] at hav
      exact absurd hav (by simp)
    · rw [if_neg h] at hav
      exact ⟨h, hav⟩
  refine ⟨?_, ?_, ?_⟩
  · intro v hv hav
    rw [huids] at hv
    obtain ⟨hvne, hav'⟩ := hactv v hav
    have hvb := hrange v hv hav'
    have hvnr : st.rank v ≠ st.rank uid := fun h => hvne (hinj v hv uid hu hav' hau h)
    rw [hrank2 v hvne hav']
    by_cases hgt : st.rank uid < st.rank v
    · rw [if_pos hgt]; omega
    · rw [if_neg hgt]; omega
  · intro v hv w hw hav haw heq
    rw [huids] at hv hw
    obtain ⟨hvne, hav'⟩ := hactv v hav
    obtain ⟨hwne, haw'⟩ := hactv w haw
    have hvnr : st.rank v ≠ st.rank uid := fun h => hvne (hinj v hv uid hu hav' hau h)
    have hwnr : st.rank w ≠ st.rank uid := fun h => hwne (hinj w hw uid hu haw' hau h)
    rw [hrank2 v hvne hav', hrank2 w hwne haw'] at heq
    by_cases hgv : st.rank uid < st.rank v <;> by_cases hgw : st.rank uid < st.rank w
    · rw [if_pos hgv, if_pos hgw] at heq
      exact hinj v hv w hw hav' haw' (by omega)
    · rw [if_pos hgv, if_neg hgw] at heq
      omega
    · rw [if_neg hgv, if_pos hgw] at heq
      omega
    · rw [if_neg hgv, if_neg hgw] at heq
      exact hinj v hv w hw hav' haw' heq
  · intro q h1 h2
    by_cases hq : q < st.rank uid
    · obtain ⟨v, hv, hav, hrv⟩ := hsurj q h1 (by omega)
      have hvne : v ≠ uid := by
        intro h
        rw [h] at hrv
        omega
      refine ⟨v, by rw [huids]; exact hv, ?_, ?_⟩
      · rw [hact v, if_neg hvne]; exact hav
      · rw [hrank2 v hvne hav, if_neg (by omega), hrv]
    · obtain ⟨v, hv, hav, hrv⟩ := hsurj (q + 1) (by omega) (by omega)
      have hvne : v ≠ uid := by
        intro h
        rw [h] at hrv
        omega
      refine ⟨v, by rw [huids]; exact hv, ?_, ?_⟩
      · rw [hact v, if_neg hvne]; exact hav
      · rw [hrank2 v hvne hav, if_pos (by omega), hrv]
        omega

theorem activeRanksPerm_ext {s1 s2 : LadderState} {n : Int}
    (huids : s2.uids = s1.uids) (hrank : ∀ v, s2.rank v = s1.rank v)
    (hact : ∀ v, s2.act v = s1.act v) (hp : activeRanksPerm s1 n) :
    activeRanksPerm s2 n := by
  obtain ⟨h1, h2, h3⟩ := hp
  refine ⟨?_, ?_, ?_⟩
  · intro u hu hau
    rw [huids] at hu
    rw [hact u] at hau
    rw [hrank u]
    exact h1 u hu hau
  · intro u hu v hv hau hav heq
    rw [huids] at hu hv
    rw [hact u] at hau
    rw [hact v] at hav
    rw [hrank u, hrank v] at heq
    exact h2 u hu v hv hau hav heq
  · intro q hq1 hq2
    obtain ⟨u, hu, hau, hru⟩ := h3 q hq1 hq2
    exact ⟨u, by rw [huids]; exact hu, by rw [hact u]; exact hau, by rw [hrank u]; exact hru⟩

theorem autoDropFold_perm (played : List Nat) (n : Int) :
    ∀ (rows : List (Nat × Int × Nat)) (st : LadderState) (w d : List Nat),
      activeRanksPerm st (n - (d.length : Int)) →
      (∀ r ∈ rows, r.1 ∈ st.uids ∧ st.act r.1 = true) →
      (rows.map (fun r => r.1)).Nodup →
      activeRanksPerm (rows.foldl (autoDropStep played) (st, w, d)).1
        (n - (((rows.foldl (autoDropStep played) (st, w, d)).2.2.length : Int))) := by
  intro rows
  induction rows with
  | nil => intro st w d hp _ _; exact hp
  | cons row rest ih =>
    intro st w d hp hrows hnd
    rw [List.map_cons, List.nodup_cons] at hnd
    obtain ⟨hrmem, hract⟩ := hrows row (List.mem_cons_self _ _)
    rw [List.foldl_cons]
    by_cases hpl : row.1 ∈ played
    · have hstep : autoDropStep played (st, w, d) row =
          ({ st with inm := fun v => if v = row.1 then 0 else st.inm v }, w, d) := by
        unfold autoDropStep
        rw [if_pos hpl]
      rw [hstep]
      apply ih ({ st with inm := fun v => if v = row.1 then 0 else st.inm v }) w d
        (activeRanksPerm_ext rfl (fun v => rfl) (fun v => rfl) hp) ?_ hnd.2
      intro r hr
      exact hrows r (List.mem_cons_of_mem _ hr)
    · by_cases hni : 2 ≤ row.2.2 + 1
      · have hstep : autoDropStep played (st, w, d) row =
            ({ uids := st.uids,
               rank := fun v => if st.rank row.1 < st.rank v ∧
                   (if v = row.1 then false else st.act v) = true
                 then st.rank v - 1 else st.rank v,
               act := fun v => if v = row.1 then false else st.act v,
               inm := fun v => if v = row.1 then row.2.2 + 1 else st.inm v },
             w, d ++ [row.1]) := by
          unfold autoDropStep
          rw [if_neg hpl, if_pos hni, getR_mem hrmem]
        rw [hstep]
        have hperm2 : activeRanksPerm
            { uids := st.uids,
              rank := fun v => if st.rank row.1 < st.rank v ∧
                  (if v = row.1 then false else st.act v) = true
                then st.rank v - 1 else st.rank v,
              act := fun v => if v = row.1 then false else st.act v,
              inm := fun v => if v = row.1 then row.2.2 + 1 else st.inm v }
            ((n - (d.length : Int)) - 1) :=
          drop_compact_perm hp hrmem hract rfl (fun v => rfl) (fun v => rfl)
        have harith : n - (((d ++ [row.1]).length : Nat) : Int) = (n - (d.length : Int)) - 1 := by
          rw [List.length_append, List.length_singleton]
          push_cast
          ring
        apply ih
        · rw [harith]
          exact hperm2
        · intro r hr
          obtain ⟨hm, ha⟩ := hrows r (List.mem_cons_of_mem _ hr)
          refine ⟨hm, ?_⟩
          show (if r.1 = row.1 then false else st.act r.1) = true
          rw [if_neg ?_]
          · exact ha
          · intro hcon
            exact hnd.1 (hcon ▸ List.mem_map_of_mem _ hr)
        · exact hnd.2
      · have h1 : row.2.2 + 1 = 1 := by omega
        have hstep : autoDropStep played (st, w, d) row =
            ({ st with inm := fun v => if v = row.1 then row.2.2 + 1 else st.inm v },
             w ++ [row.1], d) := by
          unfold autoDropStep
          rw [if_neg hpl, if_neg hni, if_pos h1]
        rw [hstep]
        apply ih ({ st with inm := fun v => if v = row.1 then row.2.2 + 1 else st.inm v })
          (w ++ [row.1]) d
          (activeRanksPerm_ext rfl (fun v => rfl) (fun v => rfl) hp) ?_ hnd.2
        intro r hr
        exact hrows r (List.mem_cons_of_mem _ hr)

theorem autoDropPhase_perm {s : LadderState}
    (hall : ∀ u ∈ s.uids, s.act u = true) (hnd : s.uids.Nodup)
    (hp : activeRanksPerm s (s.uids.length : Int)) (played : List Nat) :
    activeRanksPerm (autoDropPhase played s).1
      ((s.uids.length : Int) - ((autoDropPhase played s).2.2.length : Int)) := by
  unfold autoDropPhase
  apply autoDropFold_perm played (s.uids.length : Int) _ s [] []
  · simpa using hp
  · intro r hr
    obtain ⟨u, hu, rfl⟩ := List.mem_map.mp hr
    have hu2 : u ∈ s.uids := (activesSorted_perm_uids hall).mem_iff.mp hu
    exact ⟨hu2, hall u hu2⟩
  · simpa [List.map_map, Function.comp_def] using activesSortedByRank_nodup hnd

/-- C1, counterexample: in `dropState` (three active players at ranks
1, 2, 3, all-rows ranks a permutation of 1..3) the auto-drop of player 2
freezes its rank at 2 while shifting player 3 from rank 3 to rank 2, so
afterwards two membership rows share rank 2 — the ranks over ALL
membership rows are no longer a permutation of 1..N. -/
theorem all_rows_ranks_not_preserved_after_drop :
    allRowsRanksPerm dropState 3 ∧
    (autoDropPhase [1, 3] dropState).2.2 = [2] ∧
    ¬ allRowsRanksPerm (autoDropPhase [1, 3] dropState).1 3 := by
  refine ⟨⟨?_, ?_, ?_⟩, by rfl, ?_⟩
  · intro u hu
    have hu3 : u = 1 ∨ u = 2 ∨ u = 3 := by simpa [dropState] using hu
    rcases hu3 with rfl | rfl | rfl <;> decide
  · intro u hu v hv heq
    have hu3 : u = 1 ∨ u = 2 ∨ u = 3 := by simpa [dropState] using hu
    have hv3 : v = 1 ∨ v = 2 ∨ v = 3 := by simpa [dropState] using hv
    rcases hu3 with rfl | rfl | rfl <;> rcases hv3 with rfl | rfl | rfl <;>
      first | rfl | (exfalso; revert heq; decide)
  · intro q h1 h2
    interval_cases q
    · exact ⟨1, by decide, by decide⟩
    · exact ⟨2, by decide, by decide⟩
    · exact ⟨3, by decide, by decide⟩
  · intro hcon
    have h2 : (autoDropPhase [1, 3] dropState).1.rank 2 = 2 := by decide
    have h3 : (autoDropPhase [1, 3] dropState).1.rank 3 = 2 := by decide
    have hmem2 : (2 : Nat) ∈ (autoDropPhase [1, 3] dropState).1.uids := by decide
    have hmem3 : (3 : Nat) ∈ (autoDropPhase [1, 3] dropState).1.uids := by decide
    have := hcon.2.1 2 hmem2 3 hmem3 (by rw [h2, h3])
    exact absurd this (by decide)

/-- C1, amended: over the ACTIVE membership rows the ranks are a
permutation of `1..N`. Starting from a ladder whose members are all
active with ranks a permutation of `1..N`, this holds after the movement
swaps, after reseeding, and after inactivity compaction — where each
auto-drop shrinks the active range by one, so the active ranks end as a
permutation of `1..(N - dropped)`; the dropped players' own frozen rank
fields are what break the all-rows version. -/
theorem active_ranks_permutation_preserved
    (s : LadderState) (mov : Nat → Option String) (groups : List MGroup)
    (played : List Nat)
    (hall : ∀ u ∈ s.uids, s.act u = true)
    (hnd : s.uids.Nodup)
    (hmem : ∀ g ∈ groups, ∀ p ∈ memberIds g, p ∈ s.uids)
    (hperm : activeRanksPerm s (s.uids.length : Int)) :
    activeRanksPerm (swapPhase mov s groups) (s.uids.length : Int) ∧
    activeRanksPerm (reseedPhase (swapPhase mov s groups)) (s.uids.length : Int) ∧
    activeRanksPerm
      (autoDropPhase played (reseedPhase (swapPhase mov s groups))).1
      ((s.uids.length : Int) -
        ((autoDropPhase played (reseedPhase (swapPhase mov s groups))).2.2.length : Int)) := by
  have h1 : activeRanksPerm (swapPhase mov s groups) (s.uids.length : Int) :=
    swapPhase_perm groups s hperm hall hmem
  have hf := swapPhase_uids mov groups s
  have hall1 : ∀ u ∈ (swapPhase mov s groups).uids, (swapPhase mov s groups).act u = true := by
    rw [hf.1]
    intro u hu
    rw [hf.2]
    exact hall u hu
  have hnd1 : (swapPhase mov s groups).uids.Nodup := by rw [hf.1]; exact hnd
  have hlen1 : ((swapPhase mov s groups).uids.length : Int) = (s.uids.length : Int) := by
    rw [hf.1]
  have h2' := reseedPhase_perm hall1 hnd1 (by rw [hlen1]; exact h1)
  rw [hlen1] at h2'
  have h2 := h2'.1
  have hall2 : ∀ u ∈ (reseedPhase (swapPhase mov s groups)).uids,
      (reseedPhase (swapPhase mov s groups)).act u = true := by
    rw [h2'.2.1, hf.1]
    intro u hu
    rw [h2'.2.2, hf.2]
    exact hall u hu
  have hnd2 : (reseedPhase (swapPhase mov s groups)).uids.Nodup := by
    rw [h2'.2.1, hf.1]
    exact hnd
  have hlen2 : (((reseedPhase (swapPhase mov s groups)).uids.length : Nat) : Int) =
      (s.uids.length : Int) := by
    rw [h2'.2.1, hf.1]
  have h3 := autoDropPhase_perm hall2 hnd2 (by rw [hlen2]; exact h2) played
  rw [hlen2] at h3
  exact ⟨h1, h2, h3⟩

/-- C1, witness: the three phases of a trivial reset (no groups, all
three players played) on `tieState` keep the active ranks a permutation
of 1..3. -/
theorem active_ranks_permutation_preserved_witness :
    activeRanksPerm (swapPhase (fun _ => none) tieState []) ((tieState.uids.length : Nat) : Int) ∧
    activeRanksPerm (reseedPhase (swapPhase (fun _ => none) tieState []))
      ((tieState.uids.length : Nat) : Int) ∧
    activeRanksPerm
      (autoDropPhase [1, 2, 3] (reseedPhase (swapPhase (fun _ => none) tieState []))).1
      (((tieState.uids.length : Nat) : Int) -
        ((autoDropPhase [1, 2, 3]
          (reseedPhase (swapPhase (fun _ => none) tieState []))).2.2.length : Int)) := by
  apply active_ranks_permutation_preserved tieState (fun _ => none) [] [1, 2, 3]
  · intro u hu
    rfl
  · decide
  · intro g hg
    exact absurd hg (by simp)
  · refine ⟨?_, ?_, ?_⟩
    · intro u hu
      have hu3 : u = 1 ∨ u = 2 ∨ u = 3 := by simpa [tieState] using hu
      rcases hu3 with rfl | rfl | rfl <;> decide
    · intro u hu v hv hau hav heq
      have hu3 : u = 1 ∨ u = 2 ∨ u = 3 := by simpa [tieState] using hu
      have hv3 : v = 1 ∨ v = 2 ∨ v = 3 := by simpa [tieState] using hv
      rcases hu3 with rfl | rfl | rfl <;> rcases hv3 with rfl | rfl | rfl <;>
        first | rfl | (exfalso; revert heq; decide)
    · intro q h1 h2
      have h3 : ((tieState.uids.length : Nat) : Int) = 3 := by decide
      rw [h3] at h2
      interval_cases q
      · exact ⟨1, by decide, by decide, by decide⟩
      · exact ⟨2, by decide, by decide, by decide⟩
      · exact ⟨3, by decide, by decide, by decide⟩
